import Mathlib

/-!
# ddDeviation: parsing a CSV of observations and reducing it to mean and deviation

A shallow embedding of `main.go`: `parseCSV`, `getAverage`, `getStdDeviation`
and `main`, together with models of the library calls they make:

* float64 arithmetic (`+`, `-`, `/`, `float64(n)`, `math.Pow(x, 2)`,
  `math.Sqrt`) as IEEE 754 binary64 with round-to-nearest-even, computed
  exactly on integers;
* `strconv.ParseFloat(s, 64)`;
* `time.Parse(time.RFC3339Nano, s)`, which `parseCSV` takes as an argument, so
  that the general statements hold for any timestamp parser;
* `csv.Reader.Read` over the records of the file, with the reader's
  `FieldsPerRecord` rule.

The statistics are written over a class of arithmetic operations, read over
float64 for the numeric statements and over the reals for the algebraic ones.
-/

namespace DdDeviation

/-- A float64 value: NaN, a signed infinity, or the finite value
`(-1)^neg * m * 2^e`.  The doubles are the finite values with `m < 2^53`,
`-1074 ≤ e ≤ 971` and (`2^52 ≤ m` or `e = -1074`); both zeros are
`fin _ 0 (-1074)`. -/
inductive F64 where
  | nan : F64
  | inf (neg : Bool) : F64
  | fin (neg : Bool) (m : Nat) (e : Int) : F64
deriving DecidableEq, Repr

namespace F64

/-- The value `+0.0`. -/
def posZero : F64 := fin false 0 (-1074)

/-- The value `-0.0`. -/
def negZero : F64 := fin true 0 (-1074)

/-- Worker of `ilog2`: the first argument bounds the number of halvings. -/
def ilog2Aux : Nat → Nat → Nat
  | 0, _ => 0
  | fuel + 1, n => if n < 2 then 0 else ilog2Aux fuel (n / 2) + 1

/-- Position of the highest set bit of `n` (0 for `n = 0`). -/
def ilog2 (n : Nat) : Nat := ilog2Aux n n

/-- The integer `⌊log2 (n / d)⌋` for `n, d > 0`. -/
def floorLog2 (n d : Nat) : Int :=
  let k : Int := (ilog2 n : Int) - (ilog2 d : Int)
  if d * 2 ^ k.toNat ≤ n * 2 ^ (-k).toNat then k else k - 1

/-- The integer nearest to `n / (d * 2^e)`, ties to even, paired with `e`; a
result of `2^53` is renormalised to `2^52` with exponent `e + 1`. -/
def roundAt (e : Int) (n d : Nat) : Nat × Int :=
  let num := n * 2 ^ (-e).toNat
  let den := d * 2 ^ e.toNat
  let q := num / den
  let r := num % den
  let q1 := if den < 2 * r ∨ (2 * r = den ∧ q % 2 = 1) then q + 1 else q
  if q1 = 2 ^ 53 then (2 ^ 52, e + 1) else (q1, e)

/-- Round-to-nearest, ties-to-even, of the rational `n / d` (`d > 0`) onto the
grid of 53-bit significands with exponent at least `emin`: the result `(m, e)`
stands for `m * 2^e`. -/
def roundGrid (emin : Int) (n d : Nat) : Nat × Int :=
  if n = 0 then (0, emin) else roundAt (max (floorLog2 n d - 52) emin) n d

/-- The double nearest to `(-1)^neg * n / d` under IEEE 754 round-to-nearest-even;
values past the largest double round to infinity. -/
def round (neg : Bool) (n d : Nat) : F64 :=
  let p := roundGrid (-1074) n d
  if 971 < p.2 then inf neg else fin neg p.1 p.2

/-- The double nearest to `(-1)^neg * m * 2^e`. -/
def roundDyadic (neg : Bool) (m : Nat) (e : Int) : F64 :=
  round neg (m * 2 ^ e.toNat) (2 ^ (-e).toNat)

/-- Conversion `float64(n)` of a non-negative integer. -/
def ofNat (n : Nat) : F64 := round false n 1

/-- Conversion `float64(i)` of an integer. -/
def ofInt (i : Int) : F64 := round (decide (i < 0)) i.natAbs 1

/-- Unary minus. -/
def neg : F64 → F64
  | nan => nan
  | inf s => inf (!s)
  | fin s m e => fin (!s) m e

/-- The signed integer `(-1)^s * m`. -/
def signed (s : Bool) (m : Nat) : Int := if s then -(m : Int) else (m : Int)

/-- IEEE 754 addition `x + y`. -/
def add : F64 → F64 → F64
  | nan, _ => nan
  | _, nan => nan
  | inf a, inf b => if a = b then inf a else nan
  | inf a, fin _ _ _ => inf a
  | fin _ _ _, inf b => inf b
  | fin s1 m1 e1, fin s2 m2 e2 =>
    let e := min e1 e2
    let v := signed s1 (m1 * 2 ^ (e1 - e).toNat) + signed s2 (m2 * 2 ^ (e2 - e).toNat)
    if v = 0 then fin (s1 && s2) 0 (-1074)
    else roundDyadic (decide (v < 0)) v.natAbs e

/-- IEEE 754 subtraction `x - y`. -/
def sub (x y : F64) : F64 := add x (neg y)

/-- IEEE 754 division `x / y`. -/
def div : F64 → F64 → F64
  | nan, _ => nan
  | _, nan => nan
  | inf _, inf _ => nan
  | inf a, fin b _ _ => inf (xor a b)
  | fin a _ _, inf b => fin (xor a b) 0 (-1074)
  | fin s1 m1 e1, fin s2 m2 e2 =>
    if m2 = 0 then (if m1 = 0 then nan else inf (xor s1 s2))
    else round (xor s1 s2) (m1 * 2 ^ (e1 - e2).toNat) (m2 * 2 ^ (e2 - e1).toNat)

/-- Worker of `isqrt`: tries the bits `k-1, ..., 0` from the top. -/
def isqrtAux (n : Nat) : Nat → Nat → Nat
  | 0, r => r
  | k + 1, r => if (r + 2 ^ k) * (r + 2 ^ k) ≤ n then isqrtAux n k (r + 2 ^ k) else isqrtAux n k r

/-- Integer square root `⌊√n⌋`. -/
def isqrt (n : Nat) : Nat := isqrtAux n (ilog2 n / 2 + 1) 0

/-- Correctly rounded square root (`math.Sqrt`). -/
def sqrt : F64 → F64
  | nan => nan
  | inf s => if s then nan else inf false
  | fin s m e =>
    if m = 0 then fin s 0 (-1074)
    else if s then nan
    else
      let t0 : Int := 104 - (ilog2 m : Int)
      let t : Int := if (e - t0) % 2 = 0 then t0 else t0 + 1
      let n := m * 2 ^ t.toNat
      let r := isqrt n
      let r1 := if r < n - r * r then r + 1 else r
      if r1 = 2 ^ 53 then fin false (2 ^ 52) ((e - t) / 2 + 1) else fin false r1 ((e - t) / 2)

/-- The call `math.Pow(x, 2)`: the special cases of `math.Pow` for exponent 2,
and otherwise the square of the significand rounded to 53 bits, scaled by
`math.Ldexp` (which rounds once more when the result is subnormal). -/
def powTwo : F64 → F64
  | nan => nan
  | inf _ => inf false
  | fin s m e =>
    if m = 0 then posZero
    else if fin s m e = fin false (2 ^ 52) (-52) then fin false (2 ^ 52) (-52)
    else
      let p := roundGrid (-4096) (m * m) 1
      roundDyadic false p.1 (p.2 + 2 * e)

/-- The comparison `x == y` of Go: NaN differs from everything, the two zeros
are equal. -/
def eq : F64 → F64 → Bool
  | nan, _ => false
  | _, nan => false
  | inf a, inf b => a == b
  | fin s1 m1 e1, fin s2 m2 e2 => (m1 == 0 && m2 == 0) || (s1 == s2 && m1 == m2 && e1 == e2)
  | _, _ => false

/-- The doubles among the values of `F64`. -/
def valid : F64 → Prop
  | fin _ m e => m < 2 ^ 53 ∧ -1074 ≤ e ∧ e ≤ 971 ∧ (2 ^ 52 ≤ m ∨ e = -1074)
  | _ => True

/-- The finite doubles (neither NaN nor an infinity). -/
def isFinite : F64 → Bool
  | fin _ _ _ => true
  | _ => false

end F64

/-! ## strconv.ParseFloat -/

/-- The error kinds of `strconv.NumError`: `ErrSyntax` and `ErrRange`. -/
inductive NumError where
  | syntaxErr : NumError
  | rangeErr : NumError
deriving DecidableEq, Repr

namespace strconv

/-- The helper `lower` of package strconv: `c | 0x20`. -/
def lower (c : Char) : Nat := c.toNat ||| 32

/-- Whether `c` is an ASCII decimal digit. -/
def isDigit (c : Char) : Bool := decide (48 ≤ c.toNat ∧ c.toNat ≤ 57)

/-- Whether `c` is one of the hexadecimal digits `a`-`f`, `A`-`F`. -/
def isHexLetter (c : Char) : Bool := decide (97 ≤ lower c ∧ lower c ≤ 102)

/-- The function `commonPrefixLenIgnoreCase`: the second argument is lower case. -/
def commonPrefixLenIgnoreCase : List Char → List Char → Nat
  | c :: s, p :: ps =>
    let c1 := if 65 ≤ c.toNat ∧ c.toNat ≤ 90 then c.toNat + 32 else c.toNat
    if c1 = p.toNat then commonPrefixLenIgnoreCase s ps + 1 else 0
  | _, _ => 0

/-- The infinity branch of `special`, entered after an optional sign of
`nsign` characters. -/
def specialInf (neg : Bool) (nsign : Nat) (s : List Char) : Option (F64 × Nat) :=
  let n := commonPrefixLenIgnoreCase s "infinity".toList
  let n := if 3 < n ∧ n < 8 then 3 else n
  if n = 3 ∨ n = 8 then some (F64.inf neg, nsign + n) else none

/-- The function `special`: recognises the possibly signed strings `inf`,
`infinity` and the string `nan` in any letter case as a leading part of `s`;
returns the value and the number of characters consumed. Package
documentation: "ParseFloat recognizes the string NaN, and the (possibly signed)
strings Inf and Infinity as their respective special floating point values. It
ignores case when matching." -/
def special (s : List Char) : Option (F64 × Nat) :=
  match s with
  | [] => none
  | c :: rest =>
    if c = '+' ∨ c = '-' then specialInf (decide (c = '-')) 1 rest
    else if c = 'i' ∨ c = 'I' then specialInf false 0 s
    else if c = 'n' ∨ c = 'N' then
      (if commonPrefixLenIgnoreCase s "nan".toList = 3 then some (F64.nan, 3) else none)
    else none

/-- The state of the digit loop of `readFloat`. -/
structure Scan where
  mant : Nat
  nd : Nat
  dp : Int
  sawdot : Bool
  sawdigits : Bool
  underscores : Bool
deriving Repr

/-- The digit loop of `readFloat` for base 10 (`hex = false`) or 16; the
significand is accumulated in full. Returns the final state and the unread
characters. -/
def scanDigits (hex : Bool) : List Char → Scan → Scan × List Char
  | [], st => (st, [])
  | c :: cs, st =>
    if c = '_' then scanDigits hex cs { st with underscores := true }
    else if c = '.' then
      (if st.sawdot then (st, c :: cs)
       else scanDigits hex cs { st with sawdot := true, dp := st.nd })
    else if isDigit c then
      (if c = '0' ∧ st.nd = 0 then
         scanDigits hex cs { st with sawdigits := true, dp := st.dp - 1 }
       else
         scanDigits hex cs { st with sawdigits := true, nd := st.nd + 1,
                                     mant := st.mant * (if hex then 16 else 10) + (c.toNat - 48) })
    else if hex ∧ isHexLetter c then
      scanDigits hex cs { st with sawdigits := true, nd := st.nd + 1,
                                  mant := st.mant * 16 + (lower c - 97 + 10) }
    else (st, c :: cs)

/-- The exponent digit loop of `readFloat`: digits and underscores; the value
stops growing once it has reached 10000. Returns the exponent, whether an
underscore was seen, and the unread characters. -/
def scanExp : List Char → Nat → Bool → Nat × Bool × List Char
  | [], e, u => (e, u, [])
  | c :: cs, e, u =>
    if c = '_' then scanExp cs e true
    else if isDigit c then scanExp cs (if e < 10000 then e * 10 + (c.toNat - 48) else e) u
    else (e, u, c :: cs)

/-- The loop of `underscoreOK`; `saw` is the class of the last character. -/
def underscoreLoop (hex : Bool) : List Char → Char → Bool
  | [], saw => saw != '_'
  | c :: cs, saw =>
    if isDigit c ∨ (hex ∧ isHexLetter c) then underscoreLoop hex cs '0'
    else if c = '_' then (if saw ≠ '0' then false else underscoreLoop hex cs '_')
    else if saw = '_' then false
    else underscoreLoop hex cs '!'

/-- The function `underscoreOK`: underscores must separate digits (the base
marker counts as a digit). -/
def underscoreOK (s : List Char) : Bool :=
  let s1 := match s with
    | c :: r => if c = '-' ∨ c = '+' then r else s
    | [] => s
  match s1 with
  | a :: b :: r =>
    if a = '0' ∧ (lower b = 98 ∨ lower b = 111 ∨ lower b = 120) then
      underscoreLoop (decide (lower b = 120)) r '0'
    else underscoreLoop false s1 '^'
  | _ => underscoreLoop false s1 '^'

/-- What `readFloat` extracts from a well-formed leading part of the text: the
sign, the base, the significand, and the exponent `exp` of the base (10, or 2
for a hexadecimal literal), so that the number read is `mant * base^exp`. -/
structure Literal where
  neg : Bool
  hex : Bool
  mant : Nat
  exp : Int
deriving Repr

/-- The function `readFloat`: returns the literal read and the unread
characters, or `none` when the text does not start with a float literal. -/
def readFloat (s : List Char) : Option (Literal × List Char) :=
  let (neg, s1) := match s with
    | c :: r => if c = '+' then (false, r) else if c = '-' then (true, r) else (false, s)
    | [] => (false, s)
  if s = [] then none else
  let (hex, s2) := match s1 with
    | a :: b :: c :: r => if a = '0' ∧ lower b = 120 then (true, c :: r) else (false, s1)
    | _ => (false, s1)
  let (st, s3) := scanDigits hex s2 ⟨0, 0, 0, false, false, false⟩
  if !st.sawdigits then none else
  let dp0 : Int := if st.sawdot then st.dp else st.nd
  let dp1 : Int := if hex then dp0 * 4 else dp0
  let ndMant : Int := if hex then (st.nd : Int) * 4 else st.nd
  let expChar : Nat := if hex then 112 else 101
  let tail : Option (Int × Bool × List Char) :=
    match s3 with
    | c :: r =>
      if lower c = expChar then
        (match r with
         | [] => none
         | d :: r1 =>
           let (esign, r2) : Int × List Char :=
             if d = '+' then (1, r1) else if d = '-' then (-1, r1) else (1, d :: r1)
           match r2 with
           | [] => none
           | f :: _ =>
             if !isDigit f then none
             else
               let (e, u, r3) := scanExp r2 0 st.underscores
               some (dp1 + (e : Int) * esign, u, r3))
      else if hex then none else some (dp1, st.underscores, s3)
    | [] => if hex then none else some (dp1, st.underscores, s3)
  match tail with
  | none => none
  | some (dp, underscores, rest) =>
    let exp : Int := if st.mant ≠ 0 then dp - ndMant else 0
    if underscores ∧ !underscoreOK (s.take (s.length - rest.length)) then none
    else some (⟨neg, hex, st.mant, exp⟩, rest)

/-- The double denoted by a literal: the nearest double to `mant * base^exp`;
a value that rounds past the largest double is a range error. -/
def Literal.toFloat (l : Literal) : Except NumError F64 :=
  let b : Nat := if l.hex then 2 else 10
  match F64.round l.neg (l.mant * b ^ l.exp.toNat) (b ^ (-l.exp).toNat) with
  | F64.fin s m e => .ok (F64.fin s m e)
  | _ => .error NumError.rangeErr

/-- The call `strconv.ParseFloat(s, 64)`: the special values, or a decimal or
hexadecimal literal that takes up all of `s`, rounded to the nearest double;
the error is `ErrSyntax` or `ErrRange`. -/
def ParseFloat (s : String) : Except NumError F64 :=
  let cs := s.toList
  match special cs with
  | some (f, n) => if n = cs.length then .ok f else .error NumError.syntaxErr
  | none =>
    match readFloat cs with
    | none => .error NumError.syntaxErr
    | some (l, rest) => if rest = [] then l.toFloat else .error NumError.syntaxErr

end strconv

/-! ## time.Parse with the layout time.RFC3339Nano -/

/-- A parsed timestamp: the calendar fields read from the text and its zone,
`none` for `Z` (UTC) and `some off` for a numeric offset of `off` seconds. -/
structure Time where
  year : Nat
  month : Nat
  day : Nat
  hour : Nat
  min : Nat
  sec : Nat
  nsec : Nat
  zone : Option Int
deriving DecidableEq, Repr

/-- The failures of `time.Parse`: text that does not match the layout, a field
out of range, and text left over after the layout is exhausted. -/
inductive TimeError where
  | mismatch : TimeError
  | outOfRange : TimeError
  | extraText : TimeError
deriving DecidableEq, Repr

namespace time

/-- Whether `c` is an ASCII decimal digit. -/
def isDigit (c : Char) : Bool := decide (48 ≤ c.toNat ∧ c.toNat ≤ 57)

/-- The function `getnum`: a leading one- or two-digit number and the rest of
the text; with `fixed` the number must have two digits. -/
def getnum (s : List Char) (fixed : Bool) : Except TimeError (Nat × List Char) :=
  match s with
  | [] => .error .mismatch
  | [a] =>
    if !isDigit a then .error .mismatch
    else if fixed then .error .mismatch
    else .ok (a.toNat - 48, [])
  | a :: b :: rest =>
    if !isDigit a then .error .mismatch
    else if !isDigit b then (if fixed then .error .mismatch else .ok (a.toNat - 48, b :: rest))
    else .ok ((a.toNat - 48) * 10 + (b.toNat - 48), rest)

/-- Consumes the literal character `c` of the layout. -/
def skip (c : Char) (s : List Char) : Except TimeError (List Char) :=
  match s with
  | a :: rest => if a = c then .ok rest else .error .mismatch
  | [] => .error .mismatch

/-- The value of a string of decimal digits. -/
def digitsVal (ds : List Char) : Nat := ds.foldl (fun n c => n * 10 + (c.toNat - 48)) 0

/-- The function `daysIn`. -/
def daysIn (month year : Nat) : Nat :=
  if month = 2 then (if year % 4 = 0 ∧ (year % 100 ≠ 0 ∨ year % 400 = 0) then 29 else 28)
  else if month = 4 ∨ month = 6 ∨ month = 9 ∨ month = 11 then 30
  else 31

/-- The fractional-second element `.999999999`: optional; a period or comma
followed by digits, of which the first nine count. Returns nanoseconds and the
rest of the text. -/
def parseFraction (s : List Char) : Nat × List Char :=
  match s with
  | c :: d :: rest =>
    if (c = '.' ∨ c = ',') ∧ isDigit d then
      let ds := (d :: rest).takeWhile isDigit
      let kept := ds.take 9
      (digitsVal kept * 10 ^ (9 - kept.length), (d :: rest).dropWhile isDigit)
    else (0, s)
  | _ => (0, s)

/-- The zone element `Z07:00`: either `Z`, or six bytes: a sign, two digits, a
colon and two digits. As in package time, the hour is read first and the
minutes only if the hour was read (a number that cannot be read counts as 0),
an hour above 24 or minutes above 60 are a range error, which is reported
before any other failure, and the sign is looked at last. -/
def parseZone (s : List Char) : Except TimeError (Option Int × List Char) :=
  match s with
  | 'Z' :: rest => .ok (none, rest)
  | sign :: h1 :: h2 :: colon :: m1 :: m2 :: rest =>
    if colon ≠ ':' then .error .mismatch
    else
      let (hr, mm, bad) : Nat × Nat × Bool :=
        match getnum [h1, h2] true with
        | .error _ => (0, 0, true)
        | .ok (hr, _) =>
          match getnum [m1, m2] true with
          | .error _ => (hr, 0, true)
          | .ok (mm, _) => (hr, mm, false)
      if 24 < hr ∨ 60 < mm then .error .outOfRange
      else if bad then .error .mismatch
      else if sign = '+' then .ok (some (((hr * 60 + mm) * 60 : Nat) : Int), rest)
      else if sign = '-' then .ok (some (-(((hr * 60 + mm) * 60 : Nat) : Int)), rest)
      else .error .mismatch
  | _ => .error .mismatch

/-- The UTF-8 bytes of a character, each given as the character with that
code. -/
def utf8Bytes (c : Char) : List Char :=
  let n := c.toNat
  if n < 128 then [c]
  else if n < 2048 then [Char.ofNat (192 + n / 64), Char.ofNat (128 + n % 64)]
  else if n < 65536 then
    [Char.ofNat (224 + n / 4096), Char.ofNat (128 + n / 64 % 64), Char.ofNat (128 + n % 64)]
  else
    [Char.ofNat (240 + n / 262144), Char.ofNat (128 + n / 4096 % 64),
      Char.ofNat (128 + n / 64 % 64), Char.ofNat (128 + n % 64)]

/-- The bytes of a text: package time indexes and slices a string by bytes. -/
def bytes : List Char → List Char
  | [] => []
  | c :: cs => utf8Bytes c ++ bytes cs

/-- The call `time.Parse(time.RFC3339Nano, value)`, layout
`2006-01-02T15:04:05.999999999Z07:00`, element by element as package time
(Go 1.20 and later) reads it: a four-digit year, two-digit month, day, minute
and second, an hour of one or two digits, an optional fraction, and the zone;
the day is checked against the month last. The text is read as its bytes. The
general statements about `parseCSV` do not depend on this definition. -/
def Parse (value : String) : Except TimeError Time :=
  match bytes value.toList with
  | y1 :: y2 :: y3 :: y4 :: v =>
    if !(isDigit y1 && isDigit y2 && isDigit y3 && isDigit y4) then .error .mismatch
    else do
      let year := digitsVal [y1, y2, y3, y4]
      let v ← skip '-' v
      let (month, v) ← getnum v true
      if month = 0 ∨ 12 < month then .error .outOfRange
      let v ← skip '-' v
      let (day, v) ← getnum v true
      let v ← skip 'T' v
      let (hour, v) ← getnum v false
      if 24 ≤ hour then .error .outOfRange
      let v ← skip ':' v
      let (min, v) ← getnum v true
      if 60 ≤ min then .error .outOfRange
      let v ← skip ':' v
      let (sec, v) ← getnum v true
      if 60 ≤ sec then .error .outOfRange
      let (nsec, v) := parseFraction v
      let (zone, v) ← parseZone v
      if v ≠ [] then .error .extraText
      if day < 1 ∨ daysIn month year < day then .error .outOfRange
      pure ⟨year, month, day, hour, min, sec, nsec, zone⟩
  | _ => .error .mismatch

end time

/-! ## encoding/csv -/

/-- Why the tokenizer of `csv.Reader` cannot deliver a record: a bare quote in
an unquoted field, a misplaced or unterminated quote in a quoted field, or a
read error of the underlying file. -/
inductive TokenError where
  | bareQuote : TokenError
  | quote : TokenError
  | readErr : TokenError
deriving DecidableEq, Repr

/-- One record of the file as the tokenizer of `csv.Reader` finds it: its
fields, or the reason it cannot be split into fields. Blank lines are not
records (the reader skips them), and a quoted field may span lines, so the
records are the rows that `Read` counts, which `parseCSV` numbers from 0. -/
inductive RawRecord where
  | fields (fs : List String) : RawRecord
  | broken (err : TokenError) : RawRecord
deriving DecidableEq, Repr

/-- The errors of `Reader.Read`: `io.EOF`, `csv.ErrFieldCount`, and the
tokenizer errors. -/
inductive ReadError where
  | eof : ReadError
  | fieldCount : ReadError
  | token (err : TokenError) : ReadError
deriving DecidableEq, Repr

/-- The failure of `os.Open`. -/
inductive OsError where
  | notExist : OsError
  | permission : OsError
  | other : OsError
deriving DecidableEq, Repr

namespace csv

/-- The reader: the records not yet read and the setting `FieldsPerRecord`. -/
structure Reader where
  rest : List RawRecord
  FieldsPerRecord : Int
deriving Repr

/-- The constructor `csv.NewReader`: it sets only the comma and the reader of
the file, so `FieldsPerRecord` starts at 0; `parseCSV` never assigns it. -/
def NewReader (src : List RawRecord) : Reader := ⟨src, 0⟩

/-- The field-count rule of `Reader.Read` for a record that was split into
`fs`, under the setting `fpr`. Package documentation: "If FieldsPerRecord is
positive, Read requires each record to have the given number of fields. If
FieldsPerRecord is 0, Read sets it to the number of fields in the first record,
so that future records must have the same field count. If FieldsPerRecord is
negative, no check is made"; and "If the record has an unexpected number of
fields, Read returns the record along with the error ErrFieldCount". -/
def checkFields (fpr : Int) (fs : List String) : Except ReadError (List String) × Int :=
  if 0 < fpr then
    (if (fs.length : Int) ≠ fpr then (.error .fieldCount, fpr) else (.ok fs, fpr))
  else if fpr = 0 then (.ok fs, (fs.length : Int))
  else (.ok fs, fpr)

/-- The method `Reader.Read`: the next record or an error, and the reader
afterwards. At the end of the records the error is `io.EOF`. A record that
cannot be split into fields is an error whatever the setting. -/
def Reader.Read (r : Reader) : Except ReadError (List String) × Reader :=
  match r.rest with
  | [] => (.error .eof, r)
  | .broken err :: rest => (.error (.token err), ⟨rest, r.FieldsPerRecord⟩)
  | .fields fs :: rest => ((checkFields r.FieldsPerRecord fs).1, ⟨rest, (checkFields r.FieldsPerRecord fs).2⟩)

end csv

/-! ## main.go -/

/-- The struct `dataPoint`. -/
structure dataPoint (T : Type) where
  query : String
  group : String
  time : T
  value : F64
deriving DecidableEq, Repr

/-- The errors `parseCSV` builds with `fmt.Errorf`, one constructor per format
string, holding the values formatted into the message: the position `i` and
the underlying error. -/
inductive ParseError (E : Type) where
  | openFailed (cause : OsError) : ParseError E
  | readFailed (pos : Int) (cause : ReadError) : ParseError E
  | badLength (pos : Int) : ParseError E
  | badTime (pos : Int) (cause : E) : ParseError E
  | badValue (pos : Int) (cause : NumError) : ParseError E
deriving DecidableEq, Repr

/-- The position a `parseCSV` error message names, if it names one. -/
def ParseError.position {E : Type} : ParseError E → Option Int
  | .openFailed _ => none
  | .readFailed pos _ => some pos
  | .badLength pos => some pos
  | .badTime pos _ => some pos
  | .badValue pos _ => some pos

/-- The pair `([]*dataPoint, error)` returned by `parseCSV`; `none` is `nil`. -/
abbrev ParseResult (T E : Type) := Option (List (dataPoint T)) × Option (ParseError E)

/-- The loop of `parseCSV` from the state at the top of an iteration: the
reader `r`, the counter `i` and the records `res` built so far. The timestamp
parser `time.Parse(time.RFC3339Nano, ·)` is the argument `tp`. The first
argument bounds the number of iterations; `(none, none)` is returned only when
the bound is used up, and is no result of the program. -/
def parseLoop {T E : Type} (tp : String → Except E T) :
    Nat → csv.Reader → Int → List (dataPoint T) → ParseResult T E
  | 0, _, _, _ => (none, none)
  | fuel + 1, reader, i, res =>
    let i := i + 1
    match reader.Read with
    | (.error err, _) =>
      if err = ReadError.eof then (some res, none)
      else (none, some (.readFailed i err))
    | (.ok record, reader) =>
      if i = 0 then parseLoop tp fuel reader i res
      else
        match record with
        | [query, group, ts, val] =>
          (match tp ts with
           | .error err => (none, some (.badTime i err))
           | .ok t =>
             match strconv.ParseFloat val with
             | .error err => (none, some (.badValue i err))
             | .ok value => parseLoop tp fuel reader i (res ++ [⟨query, group, t, value⟩]))
        | _ => (none, some (.badLength i))

/-- The function `parseCSV`; `file` is the outcome of `os.Open(path)`: an
error, or the records of the file. -/
def parseCSV {T E : Type} (tp : String → Except E T)
    (file : Except OsError (List RawRecord)) : ParseResult T E :=
  match file with
  | .error err => (none, some (.openFailed err))
  | .ok src => parseLoop tp (src.length + 1) (csv.NewReader src) (-1) []

/-- The float64 operations the statistics use, so that they can be read over
the doubles and over exact arithmetic alike. -/
class FloatOps (α : Type) where
  zero : α
  add : α → α → α
  sub : α → α → α
  div : α → α → α
  ofLen : Nat → α
  powTwo : α → α
  sqrt : α → α

/-- The operations on float64. -/
instance F64.floatOps : FloatOps F64 where
  zero := F64.posZero
  add := F64.add
  sub := F64.sub
  div := F64.div
  ofLen := F64.ofNat
  powTwo := F64.powTwo
  sqrt := F64.sqrt

/-- The function `getAverage`. -/
def getAverage {α : Type} [FloatOps α] (d : List α) : α :=
  let sum := d.foldl (fun sum v => FloatOps.add sum v) FloatOps.zero
  FloatOps.div sum (FloatOps.ofLen d.length)

/-- The function `getStdDeviation`. -/
def getStdDeviation {α : Type} [FloatOps α] (d : List α) : α × α :=
  let avg := getAverage d
  let sqrDeviations : List α := List.replicate d.length FloatOps.zero
  let sqrDeviations := d.enum.foldl
    (fun acc iv => acc.set iv.1 (FloatOps.powTwo (FloatOps.sub iv.2 avg))) sqrDeviations
  let sigma2 := getAverage sqrDeviations
  (avg, FloatOps.sqrt sigma2)

/-- The record a data row stands for: query is field 1, group is field 2, time
is the parsed field 3 and value is the parsed field 4; `none` when the row has
not exactly 4 fields or field 3 or field 4 does not parse. -/
def recordOf {T E : Type} (tp : String → Except E T) (row : List String) : Option (dataPoint T) :=
  match row with
  | [query, group, ts, val] =>
    (match tp ts, strconv.ParseFloat val with
     | .ok t, .ok value => some ⟨query, group, t, value⟩
     | _, _ => none)
  | _ => none

/-- Whether a reader whose setting is `fpr` lets a record with the fields `fs`
through its field-count rule. -/
def accepts (fpr : Int) (fs : List String) : Prop := ¬ (0 < fpr ∧ (fs.length : Int) ≠ fpr)

/-- The setting `FieldsPerRecord` after a record with the fields `fs` was let
through under the setting `fpr`. -/
def nextFpr (fpr : Int) (fs : List String) : Int := if fpr = 0 then (fs.length : Int) else fpr

/-- The sum of the first `k` elements of `d`, taken in the order of the
sequence: `s_0 = 0` and `s_(k+1) = s_k + d_k`. -/
def sumUpTo {α : Type} [FloatOps α] (d : List α) : Nat → α
  | 0 => FloatOps.zero
  | k + 1 =>
    match d[k]? with
    | some v => FloatOps.add (sumUpTo d k) v
    | none => sumUpTo d k

/-! ## The function main and exact real arithmetic -/

/-- The rational value of a finite double; `none` for NaN and the infinities. -/
def F64.toRat : F64 → Option ℚ
  | .fin s m e => some ((if s then -1 else 1) * (m : ℚ) * (2 : ℚ) ^ e)
  | _ => none

/-- What `main` writes to standard output, one constructor per `fmt.Print` or
`fmt.Printf` call, holding the value formatted into the text. -/
inductive Printed (E : Type) where
  | missingFileArgument : Printed E
  | parseFailed (err : ParseError E) : Printed E
  | avg (x : F64) : Printed E
  | deviation (x : F64) : Printed E
deriving DecidableEq, Repr

/-- How a run of `main` ends: a run-time panic for an index out of range (the
Go runtime then ends the process with status 2), a call `os.Exit(code)`, or the
return of `main` (status 0); the last two with what was printed. -/
inductive Outcome (E : Type) where
  | panicIndex (index length : Nat) : Outcome E
  | exit (code : Nat) (out : List (Printed E)) : Outcome E
  | done (out : List (Printed E)) : Outcome E
deriving DecidableEq, Repr

/-- The exit status of the process. -/
def Outcome.status {E : Type} : Outcome E → Nat
  | .panicIndex _ _ => 2
  | .exit code _ => code
  | .done _ => 0

/-- The projection loop of `main`: `values` is made with `len(data)` zeros and
`values[i] = d.value` is assigned for every index and record of `data`. -/
def projectValues {T : Type} (data : List (dataPoint T)) : List F64 :=
  data.enum.foldl (fun values id => values.set id.1 id.2.value)
    (List.replicate data.length F64.posZero)

/-- The function `main`; `args` is `os.Args`, `osOpen` tells for every path
what `os.Open` and the tokenizer deliver, `tp` is the timestamp parser. The
expression `args[1]` panics when `args` has fewer than two elements. -/
def main {T E : Type} (tp : String → Except E T)
    (osOpen : String → Except OsError (List RawRecord)) (args : List String) : Outcome E :=
  match args[1]? with
  | none => .panicIndex 1 args.length
  | some path =>
    if path = "" then .exit 1 [.missingFileArgument]
    else
      match parseCSV tp (osOpen path) with
      | (_, some err) => .exit 1 [.parseFailed err]
      | (data, none) =>
        let values := projectValues (data.getD [])
        let r := getStdDeviation values
        .done [.avg r.1, .deviation r.2]

/-- Exact real arithmetic in place of float64: `math.Pow(x, 2)` is `x ^ 2`,
`math.Sqrt` is the real square root, `float64(n)` is `n`. -/
noncomputable instance realFloatOps : FloatOps ℝ where
  zero := 0
  add := fun x y => x + y
  sub := fun x y => x - y
  div := fun x y => x / y
  ofLen := fun n => (n : ℝ)
  powTwo := fun x => x ^ 2
  sqrt := Real.sqrt

/-! ## Rounding a double gives it back -/

namespace F64

theorem ilog2Aux_eq_log : ∀ (fuel n : Nat), n ≤ fuel → ilog2Aux fuel n = Nat.log 2 n := by
  intro fuel
  induction fuel with
  | zero =>
    intro n hn
    have : n = 0 := by omega
    subst this
    simp [ilog2Aux]
  | succ fuel ih =>
    intro n hn
    unfold ilog2Aux
    by_cases h : n < 2
    · rw [if_pos h, Nat.log_of_lt h]
    · rw [if_neg h, ih (n / 2) (by omega)]
      exact (Nat.log_of_one_lt_of_le (by norm_num) (by omega)).symm

theorem ilog2_eq_log (n : Nat) : ilog2 n = Nat.log 2 n := ilog2Aux_eq_log n n (le_refl n)

theorem log_mul_two_pow (m a : Nat) (hm : m ≠ 0) : Nat.log 2 (m * 2 ^ a) = Nat.log 2 m + a := by
  induction a with
  | zero => simp
  | succ a ih =>
    rw [pow_succ, ← Nat.mul_assoc, Nat.log_mul_base (by norm_num) (by positivity), ih]
    omega

theorem floorLog2_scaled (m a b : Nat) (hm : m ≠ 0) :
    floorLog2 (m * 2 ^ a) (2 ^ b) = (Nat.log 2 m : Int) + (a : Int) - (b : Int) := by
  unfold floorLog2
  simp only [ilog2_eq_log, log_mul_two_pow m a hm, Nat.log_pow (by norm_num : 1 < 2)]
  have hle : 2 ^ Nat.log 2 m ≤ m := Nat.pow_log_le_self 2 hm
  rw [if_pos]
  · push_cast; ring
  · generalize hk : (((Nat.log 2 m + a : Nat) : Int) - (b : Int)) = k
    have e1 : b + k.toNat = Nat.log 2 m + a + (-k).toNat := by omega
    calc 2 ^ b * 2 ^ k.toNat = 2 ^ (b + k.toNat) := by rw [pow_add]
      _ = 2 ^ (Nat.log 2 m + a + (-k).toNat) := by rw [e1]
      _ = 2 ^ Nat.log 2 m * 2 ^ a * 2 ^ (-k).toNat := by rw [pow_add, pow_add]
      _ ≤ m * 2 ^ a * 2 ^ (-k).toNat :=
        Nat.mul_le_mul_right _ (Nat.mul_le_mul_right _ hle)

theorem roundAt_exact (m a b : Nat) (e : Int) (he : (a : Int) - (b : Int) = e)
    (hm : m ≠ 2 ^ 53) : roundAt e (m * 2 ^ a) (2 ^ b) = (m, e) := by
  have e1 : a + (-e).toNat = b + e.toNat := by omega
  have hnum : m * 2 ^ a * 2 ^ (-e).toNat = m * (2 ^ b * 2 ^ e.toNat) := by
    rw [Nat.mul_assoc, ← pow_add, ← pow_add, e1]
  have hpos : 0 < 2 ^ b * 2 ^ e.toNat := by positivity
  unfold roundAt
  simp only [hnum, Nat.mul_div_cancel _ hpos, Nat.mul_mod_left, Nat.mul_zero]
  have hc : ¬ (2 ^ b * 2 ^ e.toNat < 0 ∨ 0 = 2 ^ b * 2 ^ e.toNat ∧ m % 2 = 1) := by
    rintro (h | ⟨h, _⟩)
    · exact Nat.not_lt_zero _ h
    · exact hpos.ne h
  simp only [if_neg hc, if_neg hm]

/-- Rounding a double, given as `m * 2^a / 2^b`, returns that double. -/
theorem round_canonical (s : Bool) (m a b : Nat) (e : Int) (hv : (fin s m e).valid)
    (hm : m ≠ 0) (he : (a : Int) - (b : Int) = e) :
    round s (m * 2 ^ a) (2 ^ b) = fin s m e := by
  obtain ⟨h1, h2, h3, h4⟩ := hv
  have hn : m * 2 ^ a ≠ 0 := by positivity
  have hexp : max (floorLog2 (m * 2 ^ a) (2 ^ b) - 52) (-1074) = e := by
    rw [floorLog2_scaled m a b hm]
    rcases h4 with h4 | h4
    · have : Nat.log 2 m = 52 := Nat.log_eq_of_pow_le_of_lt_pow h4 h1
      omega
    · by_cases h5 : 2 ^ 52 ≤ m
      · have : Nat.log 2 m = 52 := Nat.log_eq_of_pow_le_of_lt_pow h5 h1
        omega
      · have : Nat.log 2 m < 52 := Nat.log_lt_of_lt_pow hm (by omega)
        omega
  unfold round roundGrid
  rw [if_neg hn, hexp, roundAt_exact m a b e he (by omega)]
  simp only
  rw [if_neg (by omega)]

theorem ofNat_one : ofNat 1 = fin false (2 ^ 52) (-52) := by decide

theorem add_posZero_left (s : Bool) (m : Nat) (e : Int) (hv : (fin s m e).valid) (hm : m ≠ 0) :
    add posZero (fin s m e) = fin s m e := by
  have hv2 := hv
  obtain ⟨h1, h2, h3, h4⟩ := hv2
  have hmin : min (-1074) e = -1074 := by omega
  have hpos : 0 < m * 2 ^ (e - -1074).toNat := by positivity
  unfold posZero add
  simp only [hmin, signed]
  cases s with
  | false =>
    simp only [Bool.false_eq_true, if_false, Nat.zero_mul, Nat.cast_zero, zero_add]
    rw [if_neg (by omega)]
    have hneg : decide (((m * 2 ^ (e - -1074).toNat : Nat) : Int) < 0) = false := by
      simp
    rw [hneg, Int.natAbs_ofNat]
    unfold roundDyadic
    have : (-1074 : Int).toNat = 0 := by decide
    rw [this, pow_zero, Nat.mul_one]
    exact round_canonical false m _ _ e hv hm (by simp; omega)
  | true =>
    simp only [if_true, Bool.false_eq_true, if_false, Nat.zero_mul, Nat.cast_zero, zero_add]
    rw [if_neg (by omega)]
    have hneg : decide (-((m * 2 ^ (e - -1074).toNat : Nat) : Int) < 0) = true := by
      simp; omega
    rw [hneg, Int.natAbs_neg, Int.natAbs_ofNat]
    unfold roundDyadic
    have : (-1074 : Int).toNat = 0 := by decide
    rw [this, pow_zero, Nat.mul_one]
    exact round_canonical true m _ _ e hv hm (by simp; omega)

theorem div_one (s : Bool) (m : Nat) (e : Int) (hv : (fin s m e).valid) (hm : m ≠ 0) :
    div (fin s m e) (fin false (2 ^ 52) (-52)) = fin s m e := by
  have hx : xor s false = s := by cases s <;> rfl
  have h52 : (2 : Nat) ^ 52 ≠ 0 := by positivity
  simp only [div, if_neg h52, hx]
  rw [← pow_add]
  exact round_canonical s m _ _ e hv hm (by push_cast; omega)

theorem sub_self_fin (s : Bool) (m : Nat) (e : Int) : sub (fin s m e) (fin s m e) = posZero := by
  unfold sub neg add
  simp only [min_self, sub_self, Int.toNat_zero, pow_zero, Nat.mul_one, signed]
  cases s <;> simp [posZero]

end F64

/-! ## The loop of parseCSV, step by step -/

theorem recordOf_isSome {T E : Type} (tp : String → Except E T) (row : List String)
    (h : (recordOf tp row).isSome) :
    ∃ q g ts v t x, row = [q, g, ts, v] ∧ tp ts = .ok t ∧ strconv.ParseFloat v = .ok x ∧
      recordOf tp row = some ⟨q, g, t, x⟩ := by
  match row, h with
  | [q, g, ts, v], h =>
    cases ht : tp ts with
    | error e => simp [recordOf, ht] at h
    | ok t =>
      cases hx : strconv.ParseFloat v with
      | error e => simp [recordOf, ht, hx] at h
      | ok x => exact ⟨q, g, ts, v, t, x, rfl, ht, hx, by simp [recordOf, ht, hx]⟩
  | [], h => simp [recordOf] at h
  | [_], h => simp [recordOf] at h
  | [_, _], h => simp [recordOf] at h
  | [_, _, _], h => simp [recordOf] at h
  | _ :: _ :: _ :: _ :: _ :: _, h => simp [recordOf] at h

theorem recordOf_of_length_ne {T E : Type} (tp : String → Except E T) (row : List String)
    (h : row.length ≠ 4) : recordOf tp row = none := by
  cases hr : recordOf tp row with
  | none => rfl
  | some dp =>
    obtain ⟨q, g, ts, v, t, x, hrow, _⟩ := recordOf_isSome tp row (by simp [hr])
    simp [hrow] at h

theorem parseLoop_eof {T E : Type} (tp : String → Except E T) (fuel : Nat) (fpr : Int) (i : Int)
    (res : List (dataPoint T)) :
    parseLoop tp (fuel + 1) ⟨[], fpr⟩ i res = (some res, none) := by
  simp [parseLoop, csv.Reader.Read]

theorem parseLoop_broken {T E : Type} (tp : String → Except E T) (fuel : Nat) (fpr : Int)
    (i : Int) (res : List (dataPoint T)) (err : TokenError) (rest : List RawRecord) :
    parseLoop tp (fuel + 1) ⟨.broken err :: rest, fpr⟩ i res
      = (none, some (.readFailed (i + 1) (.token err))) := by
  simp [parseLoop, csv.Reader.Read]

theorem parseLoop_header {T E : Type} (tp : String → Except E T) (fuel : Nat) (hdr : List String)
    (rest : List RawRecord) :
    parseLoop tp (fuel + 1) ⟨.fields hdr :: rest, 0⟩ (-1) []
      = parseLoop tp fuel ⟨rest, hdr.length⟩ 0 [] := by
  simp [parseLoop, csv.Reader.Read, csv.checkFields]

theorem parseLoop_rejected {T E : Type} (tp : String → Except E T) (fuel : Nat) (fpr : Int)
    (i : Int) (res : List (dataPoint T)) (fs : List String) (rest : List RawRecord)
    (h : ¬ accepts fpr fs) :
    parseLoop tp (fuel + 1) ⟨.fields fs :: rest, fpr⟩ i res
      = (none, some (.readFailed (i + 1) .fieldCount)) := by
  unfold accepts at h
  have h1 : 0 < fpr := by by_contra hc; exact h (fun hh => hc hh.1)
  have h2 : (fs.length : Int) ≠ fpr := by by_contra hc; exact h (fun hh => hh.2 (by simpa using hc))
  simp [parseLoop, csv.Reader.Read, csv.checkFields, h1, h2]

theorem read_accepted (fpr : Int) (fs : List String) (rest : List RawRecord)
    (h : accepts fpr fs) :
    csv.Reader.Read ⟨.fields fs :: rest, fpr⟩ = (.ok fs, ⟨rest, nextFpr fpr fs⟩) := by
  unfold accepts at h
  simp only [csv.Reader.Read, csv.checkFields, nextFpr]
  split_ifs with h1 h2 h3 h4 h5 <;> first | rfl | (exfalso; omega)

theorem parseLoop_badLength {T E : Type} (tp : String → Except E T) (fuel : Nat) (fpr : Int)
    (i : Int) (res : List (dataPoint T)) (fs : List String) (rest : List RawRecord)
    (h : accepts fpr fs) (hi : 0 ≤ i) (hl : fs.length ≠ 4) :
    parseLoop tp (fuel + 1) ⟨.fields fs :: rest, fpr⟩ i res
      = (none, some (.badLength (i + 1))) := by
  have hne : i + 1 ≠ 0 := by omega
  rw [parseLoop, read_accepted fpr fs rest h]
  rcases fs with _ | ⟨a, _ | ⟨b, _ | ⟨c, _ | ⟨d, _ | ⟨e, l⟩⟩⟩⟩⟩ <;> simp [hne] at hl ⊢

theorem parseLoop_four {T E : Type} (tp : String → Except E T) (fuel : Nat) (fpr : Int)
    (i : Int) (res : List (dataPoint T)) (q g ts v : String) (rest : List RawRecord)
    (h : accepts fpr [q, g, ts, v]) (hi : 0 ≤ i) :
    parseLoop tp (fuel + 1) ⟨.fields [q, g, ts, v] :: rest, fpr⟩ i res
      = match tp ts with
        | .error err => (none, some (.badTime (i + 1) err))
        | .ok t =>
          match strconv.ParseFloat v with
          | .error err => (none, some (.badValue (i + 1) err))
          | .ok value =>
            parseLoop tp fuel ⟨rest, nextFpr fpr [q, g, ts, v]⟩ (i + 1) (res ++ [⟨q, g, t, value⟩]) := by
  have hne : i + 1 ≠ 0 := by omega
  rw [parseLoop, read_accepted fpr _ rest h]
  simp only [hne, if_false]

theorem parseLoop_good {T E : Type} (tp : String → Except E T) :
    ∀ (good : List (List String)) (rest : List RawRecord) (fuel : Nat) (i : Int)
      (res : List (dataPoint T)),
      0 ≤ i → (∀ r ∈ good, (recordOf tp r).isSome) →
      parseLoop tp (fuel + good.length) ⟨good.map .fields ++ rest, 4⟩ i res
        = parseLoop tp fuel ⟨rest, 4⟩ (i + good.length) (res ++ good.filterMap (recordOf tp)) := by
  intro good
  induction good with
  | nil => intro rest fuel i res _ _; simp
  | cons r gs ih =>
    intro rest fuel i res hi hg
    obtain ⟨q, g, ts, v, t, x, hr, ht, hx, hrec⟩ :=
      recordOf_isSome tp r (hg r (List.mem_cons_self _ _))
    have hgs : ∀ r ∈ gs, (recordOf tp r).isSome := fun r' h' => hg r' (List.mem_cons_of_mem _ h')
    have hacc : accepts 4 [q, g, ts, v] := by simp [accepts]
    have e1 : fuel + (r :: gs).length = fuel + gs.length + 1 := by simp; omega
    rw [e1, List.map_cons, List.cons_append, hr, parseLoop_four tp _ 4 i res q g ts v _ hacc hi]
    simp only [ht, hx]
    have e2 : nextFpr 4 [q, g, ts, v] = 4 := by simp [nextFpr]
    rw [e2, ih rest fuel (i + 1) _ (by omega) hgs, ← hr, List.filterMap_cons, hrec]
    simp
    congr 1
    omega

theorem parseLoop_bad {T E : Type} (tp : String → Except E T) (bad : RawRecord)
    (rest : List RawRecord) (fuel : Nat) (fpr : Int) (i : Int) (res : List (dataPoint T))
    (hi : 0 ≤ i) (hb : ∀ fs, bad = .fields fs → recordOf tp fs = none) :
    ∃ e, parseLoop tp (fuel + 1) ⟨bad :: rest, fpr⟩ i res = (none, some e) ∧
      e.position = some (i + 1) := by
  cases bad with
  | broken err => exact ⟨_, parseLoop_broken tp fuel fpr i res err rest, rfl⟩
  | fields fs =>
    have hnone := hb fs rfl
    by_cases hacc : accepts fpr fs
    · by_cases hl : fs.length = 4
      · obtain ⟨q, g, ts, v, rfl⟩ : ∃ q g ts v, fs = [q, g, ts, v] := by
          rcases fs with _ | ⟨a, _ | ⟨b, _ | ⟨c, _ | ⟨d, _ | ⟨e, l⟩⟩⟩⟩⟩ <;> simp at hl
          exact ⟨_, _, _, _, rfl⟩
        rw [parseLoop_four tp fuel fpr i res q g ts v rest hacc hi]
        cases ht : tp ts with
        | error e => exact ⟨_, rfl, rfl⟩
        | ok t =>
          cases hx : strconv.ParseFloat v with
          | error e => exact ⟨_, rfl, rfl⟩
          | ok x => simp [recordOf, ht, hx] at hnone
      · exact ⟨_, parseLoop_badLength tp fuel fpr i res fs rest hacc hi hl, rfl⟩
    · exact ⟨_, parseLoop_rejected tp fuel fpr i res fs rest hacc, rfl⟩

theorem parseLoop_success {T E : Type} (tp : String → Except E T) :
    ∀ (fuel : Nat) (rest : List RawRecord) (fpr : Int) (i : Int) (res recs : List (dataPoint T)),
      0 ≤ i → parseLoop tp fuel ⟨rest, fpr⟩ i res = (some recs, none) →
      ∃ rows : List (List String), rest = rows.map .fields ∧
        (∀ r ∈ rows, (recordOf tp r).isSome) ∧ recs = res ++ rows.filterMap (recordOf tp) := by
  intro fuel
  induction fuel with
  | zero => intro rest fpr i res recs _ h; simp [parseLoop] at h
  | succ fuel ih =>
    intro rest fpr i res recs hi h
    cases rest with
    | nil =>
      rw [parseLoop_eof] at h
      simp at h
      exact ⟨[], rfl, by simp, by simp [h]⟩
    | cons raw rest1 =>
      cases raw with
      | broken err => rw [parseLoop_broken] at h; simp at h
      | fields fs =>
        by_cases hacc : accepts fpr fs
        · by_cases hl : fs.length = 4
          · obtain ⟨q, g, ts, v, rfl⟩ : ∃ q g ts v, fs = [q, g, ts, v] := by
              rcases fs with _ | ⟨a, _ | ⟨b, _ | ⟨c, _ | ⟨d, _ | ⟨e, l⟩⟩⟩⟩⟩ <;> simp at hl
              exact ⟨_, _, _, _, rfl⟩
            rw [parseLoop_four tp fuel fpr i res q g ts v rest1 hacc hi] at h
            cases ht : tp ts with
            | error e => simp [ht] at h
            | ok t =>
              cases hx : strconv.ParseFloat v with
              | error e => simp [ht, hx] at h
              | ok x =>
                simp only [ht, hx] at h
                obtain ⟨rows, h1, h2, h3⟩ := ih rest1 _ (i + 1) _ recs (by omega) h
                have hrec : recordOf tp [q, g, ts, v] = some ⟨q, g, t, x⟩ := by
                  simp [recordOf, ht, hx]
                refine ⟨[q, g, ts, v] :: rows, by simp [h1], ?_, ?_⟩
                · intro r hr
                  rcases List.mem_cons.mp hr with h | h
                  · rw [h, hrec]; rfl
                  · exact h2 r h
                · rw [h3, List.filterMap_cons, hrec]; simp
          · rw [parseLoop_badLength tp fuel fpr i res fs rest1 hacc hi hl] at h; simp at h
        · rw [parseLoop_rejected tp fuel fpr i res fs rest1 hacc] at h; simp at h

theorem map_eq_filterMap_of_isSome {α β : Type} (f : α → Option β) :
    ∀ l : List α, (∀ a ∈ l, (f a).isSome) → l.map f = (l.filterMap f).map some := by
  intro l
  induction l with
  | nil => intro _; rfl
  | cons a l ih =>
    intro h
    obtain ⟨b, hb⟩ := Option.isSome_iff_exists.mp (h a (List.mem_cons_self _ _))
    rw [List.map_cons, List.filterMap_cons, hb, ih (fun a ha => h a (List.mem_cons_of_mem _ ha))]
    simp

theorem parseCSV_unfold_header {T E : Type} (tp : String → Except E T) (hdr : List String)
    (rest : List RawRecord) :
    parseCSV tp (.ok (.fields hdr :: rest))
      = parseLoop tp (rest.length + 1) ⟨rest, hdr.length⟩ 0 [] := by
  simp only [parseCSV, csv.NewReader, List.length_cons]
  exact parseLoop_header tp (rest.length + 1) hdr rest

theorem toFloat_isFinite (l : strconv.Literal) (x : F64) (h : l.toFloat = .ok x) :
    x.isFinite = true := by
  unfold strconv.Literal.toFloat at h
  simp only at h
  generalize F64.round l.neg _ _ = y at h
  cases y with
  | nan => cases h
  | inf s => cases h
  | fin s m e => cases h; rfl

theorem ParseFloat_finite_or_special (v : String) (x : F64)
    (h : strconv.ParseFloat v = .ok x) :
    x.isFinite = true ∨ (strconv.special v.toList).isSome = true := by
  unfold strconv.ParseFloat at h
  simp only [String.toList] at h ⊢
  cases hs : strconv.special v.data with
  | some p => right; rfl
  | none =>
    left
    rw [hs] at h
    simp only at h
    cases hr : strconv.readFloat v.data with
    | none => rw [hr] at h; cases h
    | some p =>
      obtain ⟨l, rest⟩ := p
      rw [hr] at h
      simp only at h
      by_cases h1 : rest = []
      · rw [if_pos h1] at h
        exact toFloat_isFinite l x h
      · rw [if_neg h1] at h
        cases h

/-! ## The statistics -/

theorem foldl_set_eq_map {α β : Type} (f : β → α) (z : α) :
    ∀ (d : List β) (pre : List α),
      (List.enumFrom pre.length d).foldl (fun acc iv => acc.set iv.1 (f iv.2))
          (pre ++ List.replicate d.length z)
        = pre ++ d.map f := by
  intro d
  induction d with
  | nil => intro pre; simp
  | cons v vs ih =>
    intro pre
    simp only [List.enumFrom_cons, List.foldl_cons, List.length_cons, List.replicate_succ,
      List.map_cons]
    have h1 : (pre ++ z :: List.replicate vs.length z).set pre.length (f v)
        = (pre ++ [f v]) ++ List.replicate vs.length z := by
      rw [List.set_append_right _ _ (le_refl _)]
      simp
    have h2 : pre.length + 1 = (pre ++ [f v]).length := by simp
    rw [h1, h2, ih (pre ++ [f v])]
    simp

theorem sumUpTo_eq_foldl {α : Type} [FloatOps α] (d : List α) :
    ∀ k, k ≤ d.length →
      sumUpTo d k = (d.take k).foldl (fun sum v => FloatOps.add sum v) FloatOps.zero := by
  intro k
  induction k with
  | zero => intro _; simp [sumUpTo]
  | succ k ih =>
    intro hk
    have hlt : k < d.length := by omega
    have h1 : d.take (k + 1) = d.take k ++ [d[k]] := by
      rw [List.take_succ, List.getElem?_eq_getElem hlt]; rfl
    rw [h1, List.foldl_append, ← ih (by omega), sumUpTo, List.getElem?_eq_getElem hlt]
    rfl

theorem getStdDeviation_eq_map {α : Type} [FloatOps α] (d : List α) :
    getStdDeviation d = (getAverage d, FloatOps.sqrt (getAverage
      (d.map fun v => FloatOps.powTwo (FloatOps.sub v (getAverage d))))) := by
  unfold getStdDeviation
  have := foldl_set_eq_map (fun v : α => FloatOps.powTwo (FloatOps.sub v (getAverage d)))
    FloatOps.zero d []
  simp only [List.length_nil, List.nil_append] at this
  simp only [List.enum]
  rw [this]

theorem floatOps_zero : (FloatOps.zero : F64) = F64.posZero := rfl

theorem floatOps_add (x y : F64) : FloatOps.add x y = F64.add x y := rfl

theorem floatOps_sub (x y : F64) : FloatOps.sub x y = F64.sub x y := rfl

theorem floatOps_div (x y : F64) : FloatOps.div x y = F64.div x y := rfl

theorem floatOps_ofLen (n : Nat) : (FloatOps.ofLen n : F64) = F64.ofNat n := rfl

theorem getAverage_single (s : Bool) (m : Nat) (e : Int) (hv : (F64.fin s m e).valid)
    (hm : m ≠ 0) : getAverage [F64.fin s m e] = F64.fin s m e := by
  unfold getAverage
  simp only [List.foldl_cons, List.foldl_nil, List.length_singleton]
  rw [floatOps_zero, floatOps_add, floatOps_div, floatOps_ofLen,
    F64.add_posZero_left s m e hv hm, F64.ofNat_one, F64.div_one s m e hv hm]

/-! ## The claims -/

/-- C1 (amended). Fail-closed parsing: when the header row has 4 fields (or the
offending row is row 1), and row `k` is the first data row that cannot be
tokenized, has a field count other than 4, an unparseable timestamp or an
unparseable number, `parseCSV` returns `nil` records and an error naming
position `k`. -/
theorem parseCSV_fail_closed {T E : Type} (tp : String → Except E T) (hdr : List String)
    (good : List (List String)) (bad : RawRecord) (rest : List RawRecord)
    (hh : hdr.length = 4 ∨ good = [])
    (hg : ∀ r ∈ good, (recordOf tp r).isSome = true)
    (hb : ∀ fs, bad = .fields fs → recordOf tp fs = none) :
    ∃ e, parseCSV tp (.ok (.fields hdr :: (good.map .fields ++ bad :: rest))) = (none, some e) ∧
      e.position = some ((good.length : Int) + 1) := by
  rw [parseCSV_unfold_header]
  rcases hh with hh | hh
  · have e1 : (good.map RawRecord.fields ++ bad :: rest).length + 1
        = (rest.length + 1 + 1) + good.length := by simp; omega
    rw [e1, hh]
    have := parseLoop_good tp good (bad :: rest) (rest.length + 1 + 1) 0 [] (le_refl 0) hg
    simp only [Nat.cast_ofNat] at this ⊢
    rw [this]
    obtain ⟨e, h1, h2⟩ := parseLoop_bad tp bad rest (rest.length + 1) 4 (0 + (good.length : Int))
      ([] ++ good.filterMap (recordOf tp)) (by omega) hb
    exact ⟨e, h1, by rw [h2]; congr 1; omega⟩
  · subst hh
    obtain ⟨e, h1, h2⟩ := parseLoop_bad tp bad rest (rest.length + 1) hdr.length 0 [] (le_refl 0) hb
    refine ⟨e, ?_, by rw [h2]; rfl⟩
    simpa using h1

/-- C1 witness: header of 4 fields, one valid row, then a row with a bad timestamp. -/
theorem parseCSV_fail_closed_witness :
    ((["query", "group", "time", "value"] : List String).length = 4 ∨
        [["q1", "g1", "2023-01-01T00:00:00Z", "10"]] = ([] : List (List String))) ∧
      (∀ r ∈ [["q1", "g1", "2023-01-01T00:00:00Z", "10"]],
        (recordOf time.Parse r).isSome = true) ∧
      (∀ fs, RawRecord.fields ["q2", "g1", "yesterday", "20"] = .fields fs →
        recordOf time.Parse fs = none) ∧
      ∃ e, parseCSV time.Parse (.ok (.fields ["query", "group", "time", "value"] ::
          ([["q1", "g1", "2023-01-01T00:00:00Z", "10"]].map .fields ++
            .fields ["q2", "g1", "yesterday", "20"] :: []))) = (none, some e) ∧
        e.position = some ((([["q1", "g1", "2023-01-01T00:00:00Z", "10"]] :
          List (List String)).length : Int) + 1) :=
  ⟨Or.inl rfl, by decide, fun fs h => by cases h; rfl,
    parseCSV_fail_closed time.Parse ["query", "group", "time", "value"]
      [["q1", "g1", "2023-01-01T00:00:00Z", "10"]] (.fields ["q2", "g1", "yesterday", "20"]) []
      (Or.inl rfl) (by decide) (fun fs h => by cases h; rfl)⟩

/-- C1 counterexample: the header has one field, row 1 is valid and row 2 has an
unparseable timestamp, so the first offending row is row 2; the error names
position 1. -/
theorem parseCSV_fail_closed_counterexample :
    (recordOf time.Parse ["q1", "g1", "2023-01-01T00:00:00Z", "10"]).isSome = true ∧
      recordOf time.Parse ["q2", "g1", "yesterday", "20"] = none ∧
      parseCSV time.Parse (.ok [.fields ["id"], .fields ["q1", "g1", "2023-01-01T00:00:00Z", "10"],
        .fields ["q2", "g1", "yesterday", "20"]]) = (none, some (.readFailed 1 .fieldCount)) ∧
      (ParseError.readFailed 1 ReadError.fieldCount : ParseError TimeError).position ≠ some 2 := by
  refine ⟨by decide, rfl, by decide, by decide⟩

/-- C2 (amended). Count and order: for a header row with 4 fields followed by
`N` data rows, each with 4 fields, a parseable timestamp in field 3 and a
parseable number in field 4, `parseCSV` succeeds with exactly `N` records, the
`i`-th being the record of the `i`-th data row. -/
theorem parseCSV_count_order {T E : Type} (tp : String → Except E T) (hdr : List String)
    (rows : List (List String))
    (hh : hdr.length = 4 ∨ rows = [])
    (hr : ∀ r ∈ rows, (recordOf tp r).isSome = true) :
    ∃ recs, parseCSV tp (.ok (.fields hdr :: rows.map .fields)) = (some recs, none) ∧
      recs.length = rows.length ∧
      ∀ i : Nat, (rows[i]?).bind (recordOf tp) = recs[i]? := by
  have hmap := map_eq_filterMap_of_isSome (recordOf tp) rows hr
  have hlen : (rows.filterMap (recordOf tp)).length = rows.length := by
    have := congrArg List.length hmap
    simpa using this.symm
  refine ⟨rows.filterMap (recordOf tp), ?_, hlen, ?_⟩
  · rw [parseCSV_unfold_header]
    rcases hh with hh | hh
    · have := parseLoop_good tp rows [] 1 0 [] (le_refl 0) hr
      simp only [List.append_nil, List.nil_append] at this
      rw [hh, List.length_map, Nat.add_comm]
      simp only [Nat.cast_ofNat]
      rw [this]
      exact parseLoop_eof tp 0 4 _ _
    · subst hh
      exact parseLoop_eof tp 0 _ _ _
  · intro i
    have h1 : (rows.map (recordOf tp))[i]? = ((rows.filterMap (recordOf tp)).map some)[i]? := by
      rw [hmap]
    rw [List.getElem?_map, List.getElem?_map] at h1
    cases hi : rows[i]? with
    | none =>
      rw [hi] at h1
      cases hj : (rows.filterMap (recordOf tp))[i]? with
      | none => rfl
      | some b => rw [hj] at h1; simp at h1
    | some r =>
      rw [hi] at h1
      cases hj : (rows.filterMap (recordOf tp))[i]? with
      | none => rw [hj] at h1; simp at h1
      | some b => rw [hj] at h1; simpa using h1

/-- C2 witness: the three-row file of the end-to-end scenario. -/
theorem parseCSV_count_order_witness :
    ((["query", "group", "time", "value"] : List String).length = 4 ∨
        [["q1", "g1", "2023-01-01T00:00:00Z", "10"], ["q2", "g1", "2023-01-02T00:00:00Z", "20"],
          ["q3", "g2", "2023-01-03T00:00:00Z", "30"]] = ([] : List (List String))) ∧
      (∀ r ∈ [["q1", "g1", "2023-01-01T00:00:00Z", "10"], ["q2", "g1", "2023-01-02T00:00:00Z", "20"],
          ["q3", "g2", "2023-01-03T00:00:00Z", "30"]], (recordOf time.Parse r).isSome = true) ∧
      ∃ recs, parseCSV time.Parse (.ok (.fields ["query", "group", "time", "value"] ::
          [["q1", "g1", "2023-01-01T00:00:00Z", "10"], ["q2", "g1", "2023-01-02T00:00:00Z", "20"],
            ["q3", "g2", "2023-01-03T00:00:00Z", "30"]].map .fields)) = (some recs, none) ∧
        recs.length = ([["q1", "g1", "2023-01-01T00:00:00Z", "10"],
          ["q2", "g1", "2023-01-02T00:00:00Z", "20"],
          ["q3", "g2", "2023-01-03T00:00:00Z", "30"]] : List (List String)).length ∧
        ∀ i : Nat, (([["q1", "g1", "2023-01-01T00:00:00Z", "10"],
          ["q2", "g1", "2023-01-02T00:00:00Z", "20"],
          ["q3", "g2", "2023-01-03T00:00:00Z", "30"]] : List (List String))[i]?).bind
            (recordOf time.Parse) = recs[i]? :=
  ⟨Or.inl rfl, by decide,
    parseCSV_count_order time.Parse ["query", "group", "time", "value"]
      [["q1", "g1", "2023-01-01T00:00:00Z", "10"], ["q2", "g1", "2023-01-02T00:00:00Z", "20"],
        ["q3", "g2", "2023-01-03T00:00:00Z", "30"]] (Or.inl rfl) (by decide)⟩

/-- C2 counterexample: a header row of one field followed by one valid data
row; `parseCSV` fails at position 1 instead of returning one record. -/
theorem parseCSV_count_order_counterexample :
    (recordOf time.Parse ["q1", "g1", "2023-01-01T00:00:00Z", "10"]).isSome = true ∧
      parseCSV time.Parse (.ok [.fields ["measurements"],
        .fields ["q1", "g1", "2023-01-01T00:00:00Z", "10"]])
        = (none, some (.readFailed 1 .fieldCount)) := by
  refine ⟨by decide, by decide⟩

/-- C4. Population standard deviation: `getStdDeviation d` is the pair of
`avg = getAverage d` and the square root of the `getAverage` of the squared
deviations `math.Pow(v - avg, 2)`; on `[2, 4, 4, 4, 5, 5, 7, 9]` it is `(5, 2)`. -/
theorem getStdDeviation_population :
    (∀ (α : Type) [FloatOps α] (d : List α),
      getStdDeviation d = (getAverage d, FloatOps.sqrt (getAverage
        (d.map fun v => FloatOps.powTwo (FloatOps.sub v (getAverage d)))))) ∧
    getStdDeviation [F64.ofNat 2, F64.ofNat 4, F64.ofNat 4, F64.ofNat 4, F64.ofNat 5, F64.ofNat 5,
        F64.ofNat 7, F64.ofNat 9] = (F64.ofNat 5, F64.ofNat 2) := by
  constructor
  · intro α _ d
    exact getStdDeviation_eq_map d
  · decide!

/-- C5. Arithmetic mean: `getAverage d` is the sum of the elements of `d`
divided by their number; `getAverage [2, 4, 6] = 4`. -/
theorem getAverage_mean :
    (∀ (α : Type) [FloatOps α] (d : List α),
      getAverage d = FloatOps.div (sumUpTo d d.length) (FloatOps.ofLen d.length)) ∧
    getAverage [F64.ofNat 2, F64.ofNat 4, F64.ofNat 6] = F64.ofNat 4 := by
  constructor
  · intro α _ d
    rw [sumUpTo_eq_foldl d d.length (le_refl _), List.take_length]
    rfl
  · decide!

/-- C6. Single element: for every finite double `x`, `getStdDeviation [x]` has
standard deviation `+0` and a mean equal to `x` under `==`; the mean is `x`
itself unless `x` is `-0`, for which it is `+0`. -/
theorem getStdDeviation_single (x : F64) (hv : x.valid) (hf : x.isFinite = true) :
    (getStdDeviation [x]).2 = F64.posZero ∧ F64.eq (getStdDeviation [x]).1 x = true ∧
      (x ≠ F64.negZero → (getStdDeviation [x]).1 = x) := by
  cases x with
  | nan => simp [F64.isFinite] at hf
  | inf s => simp [F64.isFinite] at hf
  | fin s m e =>
    by_cases hm : m = 0
    · subst hm
      have he : e = -1074 := by
        obtain ⟨_, _, _, h4⟩ := hv
        rcases h4 with h4 | h4
        · simp at h4
        · exact h4
      subst he
      cases s
      · refine ⟨by decide, by decide, fun _ => by decide⟩
      · refine ⟨by decide, by decide, fun h => absurd rfl h⟩
    · have havg := getAverage_single s m e hv hm
      rw [getStdDeviation_eq_map, havg]
      simp only [List.map_cons, List.map_nil]
      rw [floatOps_sub, F64.sub_self_fin s m e]
      refine ⟨by decide, ?_, fun _ => ?_⟩
      · simp [F64.eq]
      · first | rfl | trivial

/-- C6 witness: the double 42.5. -/
theorem getStdDeviation_single_witness :
    (F64.fin false 5981343255101440 (-47)).valid ∧
      (F64.fin false 5981343255101440 (-47)).isFinite = true ∧
      ((getStdDeviation [F64.fin false 5981343255101440 (-47)]).2 = F64.posZero ∧
        F64.eq (getStdDeviation [F64.fin false 5981343255101440 (-47)]).1
          (F64.fin false 5981343255101440 (-47)) = true ∧
        (F64.fin false 5981343255101440 (-47) ≠ F64.negZero →
          (getStdDeviation [F64.fin false 5981343255101440 (-47)]).1
            = F64.fin false 5981343255101440 (-47))) :=
  ⟨by unfold F64.valid; decide, rfl,
    getStdDeviation_single (F64.fin false 5981343255101440 (-47)) (by unfold F64.valid; decide) rfl⟩

/-- C8 (amended). Wrong field count: when the header row has 4 fields (or the
row is row 1), and row `k` is the first data row whose field count `n` is not
4, `parseCSV` fails with an error that names position `k` and no count: the
reader's field-count error when `n` differs from the header's count, and the
unexpected-record-length error otherwise. -/
theorem parseCSV_wrong_field_count {T E : Type} (tp : String → Except E T) (hdr : List String)
    (good : List (List String)) (fs : List String) (rest : List RawRecord)
    (hh : hdr.length = 4 ∨ good = [])
    (hg : ∀ r ∈ good, (recordOf tp r).isSome = true)
    (hn : fs.length ≠ 4) :
    parseCSV tp (.ok (.fields hdr :: (good.map .fields ++ .fields fs :: rest)))
      = (none, some (if hdr.length = 0 ∨ fs.length = hdr.length
          then .badLength ((good.length : Int) + 1)
          else .readFailed ((good.length : Int) + 1) .fieldCount)) := by
  rw [parseCSV_unfold_header]
  have key : ∀ (fuel : Nat) (i : Int) (res : List (dataPoint T)), 0 ≤ i →
      parseLoop tp (fuel + 1) ⟨.fields fs :: rest, hdr.length⟩ i res
        = (none, some (if hdr.length = 0 ∨ fs.length = hdr.length
            then .badLength (i + 1) else .readFailed (i + 1) .fieldCount)) := by
    intro fuel i res hi
    by_cases hc : hdr.length = 0 ∨ fs.length = hdr.length
    · rw [if_pos hc]
      exact parseLoop_badLength tp fuel _ i res fs rest (by unfold accepts; omega) hi hn
    · rw [if_neg hc]
      exact parseLoop_rejected tp fuel _ i res fs rest (by unfold accepts; omega)
  rcases hh with hh | hh
  · have e1 : (good.map RawRecord.fields ++ RawRecord.fields fs :: rest).length + 1
        = (rest.length + 1 + 1) + good.length := by simp; omega
    have h4 : ((hdr.length : Nat) : Int) = 4 := by omega
    have := parseLoop_good tp good (.fields fs :: rest) (rest.length + 1 + 1) 0 [] (le_refl 0) hg
    rw [e1, h4, this, ← h4, key _ _ _ (by omega)]
    simp
  · subst hh
    have := key (rest.length + 1) 0 [] (le_refl 0)
    simpa using this

/-- C8 witness: a row of three fields after a valid row, under a header of 4
fields. -/
theorem parseCSV_wrong_field_count_witness :
    ((["query", "group", "time", "value"] : List String).length = 4 ∨
        [["q1", "g1", "2023-01-01T00:00:00Z", "10"]] = ([] : List (List String))) ∧
      (∀ r ∈ [["q1", "g1", "2023-01-01T00:00:00Z", "10"]],
        (recordOf time.Parse r).isSome = true) ∧
      (["q2", "g1", "20"] : List String).length ≠ 4 ∧
      parseCSV time.Parse (.ok (.fields ["query", "group", "time", "value"] ::
          ([["q1", "g1", "2023-01-01T00:00:00Z", "10"]].map .fields ++
            .fields ["q2", "g1", "20"] :: [])))
        = (none, some (if (["query", "group", "time", "value"] : List String).length = 0 ∨
              (["q2", "g1", "20"] : List String).length
                = (["query", "group", "time", "value"] : List String).length
            then .badLength ((([["q1", "g1", "2023-01-01T00:00:00Z", "10"]] :
              List (List String)).length : Int) + 1)
            else .readFailed ((([["q1", "g1", "2023-01-01T00:00:00Z", "10"]] :
              List (List String)).length : Int) + 1) .fieldCount)) :=
  ⟨Or.inl rfl, by decide, by decide,
    parseCSV_wrong_field_count time.Parse ["query", "group", "time", "value"]
      [["q1", "g1", "2023-01-01T00:00:00Z", "10"]] ["q2", "g1", "20"] []
      (Or.inl rfl) (by decide) (by decide)⟩

/-- C8 counterexample: row 1 with three fields and row 1 with five fields give
the very same error, which therefore does not tell the count observed. -/
theorem parseCSV_wrong_field_count_counterexample :
    parseCSV time.Parse (.ok [.fields ["query", "group", "time", "value"],
        .fields ["q1", "g1", "10"]]) = (none, some (.readFailed 1 .fieldCount)) ∧
    parseCSV time.Parse (.ok [.fields ["query", "group", "time", "value"],
        .fields ["q1", "g1", "2023-01-01T00:00:00Z", "10", "extra"]])
      = (none, some (.readFailed 1 .fieldCount)) ∧
    parseCSV time.Parse (.ok [.fields ["a", "b", "c"], .fields ["q1", "g1", "10"]])
      = (none, some (.badLength 1)) ∧
    parseCSV time.Parse (.ok [.fields ["a", "b", "c", "d", "e"],
        .fields ["q1", "g1", "2023-01-01T00:00:00Z", "10", "extra"]])
      = (none, some (.badLength 1)) := by
  refine ⟨by decide, by decide, by decide, by decide⟩

/-- C9 (amended). Every record of a successful `parseCSV` comes from a data row
with 4 fields whose field 4 `strconv.ParseFloat` accepts, and its value is the
number `strconv.ParseFloat` returns for that field; the value is finite unless
field 4 is one of the spellings of NaN and the infinities that
`strconv.ParseFloat` accepts. -/
theorem parseCSV_value_parsed {T E : Type} (tp : String → Except E T) (src : List RawRecord)
    (recs : List (dataPoint T)) (h : parseCSV tp (.ok src) = (some recs, none)) :
    ∀ r ∈ recs, ∃ ts val, RawRecord.fields [r.query, r.group, ts, val] ∈ src.tail ∧
      tp ts = .ok r.time ∧ strconv.ParseFloat val = .ok r.value ∧
      (r.value.isFinite = true ∨ (strconv.special val.toList).isSome = true) := by
  intro r hr
  cases src with
  | nil =>
    have : parseCSV tp (.ok ([] : List RawRecord)) = (some [], none) := by
      simp [parseCSV, csv.NewReader, parseLoop, csv.Reader.Read]
    rw [this] at h
    simp at h
    subst h
    simp at hr
  | cons raw rest =>
    cases raw with
    | broken err =>
      simp [parseCSV, csv.NewReader, parseLoop, csv.Reader.Read] at h
    | fields hdr =>
      rw [parseCSV_unfold_header] at h
      obtain ⟨rows, h1, h2, h3⟩ := parseLoop_success tp _ _ _ _ _ _ (le_refl 0) h
      rw [h3, List.nil_append, List.mem_filterMap] at hr
      obtain ⟨row, hmem, hrow⟩ := hr
      obtain ⟨q, g, ts, v, t, x, e1, e2, e3, e4⟩ := recordOf_isSome tp row (h2 row hmem)
      rw [e4] at hrow
      cases hrow
      refine ⟨ts, v, ?_, e2, e3, ParseFloat_finite_or_special v x e3⟩
      simp only [List.tail_cons, h1, List.mem_map]
      exact ⟨row, hmem, by rw [e1]⟩

/-- C9 witness: the record of the one data row. -/
theorem parseCSV_value_parsed_witness :
    parseCSV time.Parse (.ok [.fields ["query", "group", "time", "value"],
        .fields ["q1", "g1", "2023-01-01T00:00:00Z", "0x1p-2"]])
      = (some [⟨"q1", "g1", ⟨2023, 1, 1, 0, 0, 0, 0, none⟩, F64.fin false 4503599627370496 (-54)⟩],
          none) ∧
    ∀ r ∈ [(⟨"q1", "g1", ⟨2023, 1, 1, 0, 0, 0, 0, none⟩, F64.fin false 4503599627370496 (-54)⟩ :
        dataPoint Time)],
      ∃ ts val, RawRecord.fields [r.query, r.group, ts, val] ∈
          ([.fields ["query", "group", "time", "value"],
            .fields ["q1", "g1", "2023-01-01T00:00:00Z", "0x1p-2"]] : List RawRecord).tail ∧
        time.Parse ts = .ok r.time ∧ strconv.ParseFloat val = .ok r.value ∧
        (r.value.isFinite = true ∨ (strconv.special val.toList).isSome = true) :=
  ⟨by decide, parseCSV_value_parsed time.Parse _ _ (by decide)⟩

/-- C9 counterexample: the fields `NaN` and `-Inf` parse without error, and
`parseCSV` succeeds with records whose values are NaN and negative infinity. -/
theorem parseCSV_value_parsed_counterexample :
    parseCSV time.Parse (.ok [.fields ["query", "group", "time", "value"],
        .fields ["q1", "g1", "2023-01-01T00:00:00Z", "NaN"],
        .fields ["q2", "g1", "2023-01-02T00:00:00Z", "-Inf"]])
      = (some [⟨"q1", "g1", ⟨2023, 1, 1, 0, 0, 0, 0, none⟩, F64.nan⟩,
               ⟨"q2", "g1", ⟨2023, 1, 2, 0, 0, 0, 0, none⟩, F64.inf true⟩], none) ∧
    F64.nan.isFinite = false ∧ (F64.inf true).isFinite = false := by
  refine ⟨by decide, rfl, rfl⟩

theorem parseLoop_good_eof {T E : Type} (tp : String → Except E T) (good : List (List String))
    (fuel : Nat) (i : Int) (res : List (dataPoint T)) (hi : 0 ≤ i)
    (hg : ∀ r ∈ good, (recordOf tp r).isSome = true) :
    parseLoop tp (fuel + good.length + 1) ⟨good.map .fields, 4⟩ i res
      = (some (res ++ good.filterMap (recordOf tp)), none) := by
  have h := parseLoop_good tp good [] (fuel + 1) i res hi hg
  rw [List.append_nil] at h
  have e1 : fuel + good.length + 1 = fuel + 1 + good.length := by omega
  rw [e1, h]
  exact parseLoop_eof tp fuel 4 _ _

/-- C10 (amended). Empty result on exhausted source: a source with no rows and
a source with only a header row (of any fields) give the empty record sequence
and no error; under a header row of 4 fields, reaching the end of input after
any number of valid rows ends `parseCSV` successfully with the records of
exactly those rows, in order; and from any state of the loop after such a
header, with records `res` accumulated so far, valid rows followed by the end
of input give `res` followed by the records of those rows. -/
theorem parseCSV_exhausted {T E : Type} (tp : String → Except E T) (hdr : List String)
    (rows : List (List String)) (fuel : Nat) (i : Int) (res : List (dataPoint T))
    (hh : hdr.length = 4 ∨ rows = [])
    (hr : ∀ r ∈ rows, (recordOf tp r).isSome = true) (hi : 0 ≤ i) :
    parseCSV tp (.ok []) = (some [], none) ∧
    (∀ h : List String, parseCSV tp (.ok [.fields h]) = (some [], none)) ∧
    (∃ recs, parseCSV tp (.ok (.fields hdr :: rows.map .fields)) = (some recs, none) ∧
      rows.map (recordOf tp) = recs.map some) ∧
    (∃ recs, parseLoop tp (fuel + rows.length + 1) ⟨rows.map .fields, 4⟩ i res
        = (some (res ++ recs), none) ∧
      rows.map (recordOf tp) = recs.map some) := by
  have hmap := map_eq_filterMap_of_isSome (recordOf tp) rows hr
  refine ⟨?_, ?_, ⟨rows.filterMap (recordOf tp), ?_, hmap⟩,
    ⟨rows.filterMap (recordOf tp), parseLoop_good_eof tp rows fuel i res hi hr, hmap⟩⟩
  · simp [parseCSV, csv.NewReader, parseLoop, csv.Reader.Read]
  · intro h
    rw [parseCSV_unfold_header]
    exact parseLoop_eof tp 0 _ _ _
  · rw [parseCSV_unfold_header]
    rcases hh with hh | hh
    · have h4 : ((hdr.length : Nat) : Int) = 4 := by omega
      have := parseLoop_good_eof tp rows 0 0 [] (le_refl 0) hr
      rw [List.length_map, h4]
      simpa using this
    · subst hh
      exact parseLoop_eof tp 0 _ _ _

/-- C10 witness: the header of 4 fields followed by two valid rows, and the
loop after that header with one record already accumulated. -/
theorem parseCSV_exhausted_witness :
    ((["query", "group", "time", "value"] : List String).length = 4 ∨
        [["q1", "g1", "2023-01-01T00:00:00Z", "10"], ["q2", "g1", "2023-01-02T00:00:00Z", "20"]]
          = ([] : List (List String))) ∧
      (∀ r ∈ [["q1", "g1", "2023-01-01T00:00:00Z", "10"],
          ["q2", "g1", "2023-01-02T00:00:00Z", "20"]], (recordOf time.Parse r).isSome = true) ∧
      (0 : Int) ≤ 1 ∧
      (parseCSV time.Parse (.ok []) = (some [], none) ∧
        (∀ h : List String, parseCSV time.Parse (.ok [.fields h]) = (some [], none)) ∧
        (∃ recs, parseCSV time.Parse (.ok (.fields ["query", "group", "time", "value"] ::
            [["q1", "g1", "2023-01-01T00:00:00Z", "10"],
              ["q2", "g1", "2023-01-02T00:00:00Z", "20"]].map .fields)) = (some recs, none) ∧
          [["q1", "g1", "2023-01-01T00:00:00Z", "10"],
            ["q2", "g1", "2023-01-02T00:00:00Z", "20"]].map (recordOf time.Parse)
            = recs.map some) ∧
        (∃ recs, parseLoop time.Parse
            (0 + ([["q1", "g1", "2023-01-01T00:00:00Z", "10"],
              ["q2", "g1", "2023-01-02T00:00:00Z", "20"]] : List (List String)).length + 1)
            ⟨[["q1", "g1", "2023-01-01T00:00:00Z", "10"],
              ["q2", "g1", "2023-01-02T00:00:00Z", "20"]].map .fields, 4⟩ 1
            [⟨"q0", "g0", ⟨2022, 12, 31, 0, 0, 0, 0, none⟩, F64.posZero⟩]
            = (some ([⟨"q0", "g0", ⟨2022, 12, 31, 0, 0, 0, 0, none⟩, F64.posZero⟩] ++ recs),
                none) ∧
          [["q1", "g1", "2023-01-01T00:00:00Z", "10"],
            ["q2", "g1", "2023-01-02T00:00:00Z", "20"]].map (recordOf time.Parse)
            = recs.map some)) :=
  ⟨Or.inl rfl, by decide, by decide,
    parseCSV_exhausted time.Parse ["query", "group", "time", "value"]
      [["q1", "g1", "2023-01-01T00:00:00Z", "10"], ["q2", "g1", "2023-01-02T00:00:00Z", "20"]]
      0 1 [⟨"q0", "g0", ⟨2022, 12, 31, 0, 0, 0, 0, none⟩, F64.posZero⟩]
      (Or.inl rfl) (by decide) (by decide)⟩

/-- C10 counterexample: a header row of two fields followed by two valid rows;
`parseCSV` does not reach the end of input, it fails at position 1 with no
records. -/
theorem parseCSV_exhausted_counterexample :
    (∀ r ∈ [["q1", "g1", "2023-01-01T00:00:00Z", "10"],
        ["q2", "g1", "2023-01-02T00:00:00Z", "20"]], (recordOf time.Parse r).isSome = true) ∧
      parseCSV time.Parse (.ok [.fields ["id", "note"],
          .fields ["q1", "g1", "2023-01-01T00:00:00Z", "10"],
          .fields ["q2", "g1", "2023-01-02T00:00:00Z", "20"]])
        = (none, some (.readFailed 1 .fieldCount)) := by
  refine ⟨by decide, by decide⟩

/-! ## Sums over the reals -/

theorem real_getAverage (d : List ℝ) : getAverage d = d.sum / (d.length : ℝ) := by
  unfold getAverage
  have h : ∀ (l : List ℝ) (a : ℝ),
      List.foldl (fun sum v => (FloatOps.add sum v : ℝ)) a l = a + l.sum := by
    intro l
    induction l with
    | nil => intro a; simp
    | cons x xs ih =>
      intro a
      rw [List.foldl_cons, ih, List.sum_cons]
      show a + x + xs.sum = a + (x + xs.sum)
      ring
  rw [h]
  show ((0 : ℝ) + d.sum) / (d.length : ℝ) = d.sum / (d.length : ℝ)
  rw [zero_add]

theorem real_getStdDeviation (d : List ℝ) :
    getStdDeviation d = (d.sum / (d.length : ℝ),
      Real.sqrt ((d.map fun v => (v - d.sum / (d.length : ℝ)) ^ 2).sum / (d.length : ℝ))) := by
  rw [getStdDeviation_eq_map, real_getAverage, real_getAverage, List.length_map]
  rfl

theorem length_pos_real (d : List ℝ) (h : d ≠ []) : (0 : ℝ) < (d.length : ℝ) := by
  have : 0 < d.length := List.length_pos.mpr h
  exact_mod_cast this

theorem sum_sq_dev (d : List ℝ) (c : ℝ) :
    (d.map fun v => (v - c) ^ 2).sum
      = (d.map fun v => v ^ 2).sum - 2 * c * d.sum + (d.length : ℝ) * c ^ 2 := by
  induction d with
  | nil => simp
  | cons x xs ih =>
    simp only [List.map_cons, List.sum_cons, List.length_cons, ih]
    push_cast
    ring

theorem sum_sq_dev_nonneg (d : List ℝ) (c : ℝ) : 0 ≤ (d.map fun v => (v - c) ^ 2).sum := by
  apply List.sum_nonneg
  intro x hx
  obtain ⟨v, _, rfl⟩ := List.mem_map.mp hx
  positivity

theorem sum_sq_dev_eq_zero (d : List ℝ) (c : ℝ) :
    (d.map fun v => (v - c) ^ 2).sum = 0 ↔ ∀ v ∈ d, v = c := by
  induction d with
  | nil => simp
  | cons x xs ih =>
    simp only [List.map_cons, List.sum_cons, List.mem_cons, forall_eq_or_imp]
    rw [add_eq_zero_iff_of_nonneg (by positivity) (sum_sq_dev_nonneg xs c), ih]
    constructor
    · rintro ⟨h1, h2⟩
      exact ⟨by nlinarith [sq_nonneg (x - c), sub_eq_zero.mp (pow_eq_zero_iff (two_ne_zero)|>.mp h1)], h2⟩
    · rintro ⟨h1, h2⟩
      exact ⟨by rw [h1]; ring, h2⟩

theorem sum_const (d : List ℝ) (c : ℝ) (h : ∀ v ∈ d, v = c) : d.sum = (d.length : ℝ) * c := by
  induction d with
  | nil => simp
  | cons x xs ih =>
    have hx : x = c := h x (List.mem_cons_self _ _)
    have := ih (fun v hv => h v (List.mem_cons_of_mem _ hv))
    simp only [List.sum_cons, List.length_cons, this, hx]
    push_cast
    ring

theorem sum_le_of_le (d : List ℝ) (hi : ℝ) (h : ∀ v ∈ d, v ≤ hi) :
    d.sum ≤ (d.length : ℝ) * hi := by
  induction d with
  | nil => simp
  | cons x xs ih =>
    have hx : x ≤ hi := h x (List.mem_cons_self _ _)
    have := ih (fun v hv => h v (List.mem_cons_of_mem _ hv))
    simp only [List.sum_cons, List.length_cons]
    push_cast
    linarith

theorem le_sum_of_le (d : List ℝ) (lo : ℝ) (h : ∀ v ∈ d, lo ≤ v) :
    (d.length : ℝ) * lo ≤ d.sum := by
  induction d with
  | nil => simp
  | cons x xs ih =>
    have hx : lo ≤ x := h x (List.mem_cons_self _ _)
    have := ih (fun v hv => h v (List.mem_cons_of_mem _ hv))
    simp only [List.sum_cons, List.length_cons]
    push_cast
    linarith

theorem sum_map_add_const (d : List ℝ) (c : ℝ) :
    (d.map fun v => v + c).sum = d.sum + (d.length : ℝ) * c := by
  induction d with
  | nil => simp
  | cons x xs ih =>
    simp only [List.map_cons, List.sum_cons, List.length_cons, ih]
    push_cast
    ring

theorem sum_map_mul_const (d : List ℝ) (k : ℝ) :
    (d.map fun v => k * v).sum = k * d.sum := by
  induction d with
  | nil => simp
  | cons x xs ih =>
    simp only [List.map_cons, List.sum_cons, ih]
    ring

theorem mean_bounds (d : List ℝ) (hne : d ≠ []) (lo hi : ℝ) (hlo : ∀ v ∈ d, lo ≤ v)
    (hhi : ∀ v ∈ d, v ≤ hi) : lo ≤ d.sum / (d.length : ℝ) ∧ d.sum / (d.length : ℝ) ≤ hi := by
  have hn := length_pos_real d hne
  constructor
  · rw [le_div_iff₀ hn]
    linarith [le_sum_of_le d lo hlo]
  · rw [div_le_iff₀ hn]
    linarith [sum_le_of_le d hi hhi]

theorem sum_sq_dev_scale (d : List ℝ) (k m : ℝ) :
    ((d.map fun v => k * v).map fun v => (v - k * m) ^ 2).sum
      = k ^ 2 * (d.map fun v => (v - m) ^ 2).sum := by
  induction d with
  | nil => simp
  | cons x xs ih =>
    simp only [List.map_cons, List.sum_cons, ih]
    ring

theorem sum_sq_dev_shift (d : List ℝ) (c m : ℝ) :
    ((d.map fun v => v + c).map fun v => (v - (m + c)) ^ 2).sum
      = (d.map fun v => (v - m) ^ 2).sum := by
  induction d with
  | nil => simp
  | cons x xs ih =>
    simp only [List.map_cons, List.sum_cons, ih]
    ring

theorem projectValues_eq_map {T : Type} (data : List (dataPoint T)) :
    projectValues data = data.map fun d => d.value := by
  unfold projectValues
  have := foldl_set_eq_map (fun d : dataPoint T => d.value) F64.posZero data []
  simp only [List.length_nil, List.nil_append] at this
  simp only [List.enum]
  rw [this]

/-! ## The claims, continued -/

/-- C11. End-to-end scenario: the CSV with header `query,group,time,value` and
the rows `q1,g1,...,10`, `q2,g1,...,20`, `q3,g2,...,30` parses into three
records; the projection of `main` gives `[10, 20, 30]`, one value per record;
`getStdDeviation` on them gives mean 20 and, over the reals, the deviation
`√(200/3)`, which lies in `[8.16496575, 8.16496585)`; in float64 the deviation
is the double `4596467122019239 * 2^-49`, in the same interval and with a
square within `10^-13` of `200/3`; `main` prints these two numbers. -/
theorem end_to_end_scenario :
    parseCSV time.Parse (.ok [.fields ["query", "group", "time", "value"],
        .fields ["q1", "g1", "2023-01-01T00:00:00Z", "10"],
        .fields ["q2", "g1", "2023-01-02T00:00:00Z", "20"],
        .fields ["q3", "g2", "2023-01-03T00:00:00Z", "30"]])
      = (some [⟨"q1", "g1", ⟨2023, 1, 1, 0, 0, 0, 0, none⟩, F64.ofNat 10⟩,
               ⟨"q2", "g1", ⟨2023, 1, 2, 0, 0, 0, 0, none⟩, F64.ofNat 20⟩,
               ⟨"q3", "g2", ⟨2023, 1, 3, 0, 0, 0, 0, none⟩, F64.ofNat 30⟩], none) ∧
    projectValues [(⟨"q1", "g1", ⟨2023, 1, 1, 0, 0, 0, 0, none⟩, F64.ofNat 10⟩ : dataPoint Time),
        ⟨"q2", "g1", ⟨2023, 1, 2, 0, 0, 0, 0, none⟩, F64.ofNat 20⟩,
        ⟨"q3", "g2", ⟨2023, 1, 3, 0, 0, 0, 0, none⟩, F64.ofNat 30⟩]
      = [F64.ofNat 10, F64.ofNat 20, F64.ofNat 30] ∧
    (∀ data : List (dataPoint Time), projectValues data = data.map (fun d => d.value) ∧
      (projectValues data).length = data.length) ∧
    getStdDeviation [F64.ofNat 10, F64.ofNat 20, F64.ofNat 30]
      = (F64.ofNat 20, F64.fin false 4596467122019239 (-49)) ∧
    (∃ q : ℚ, F64.toRat (F64.fin false 4596467122019239 (-49)) = some q ∧
      (816496575 : ℚ) / 10 ^ 8 ≤ q ∧ q < (816496585 : ℚ) / 10 ^ 8 ∧
      |q ^ 2 - 200 / 3| < 1 / 10 ^ 13) ∧
    getStdDeviation ([10, 20, 30] : List ℝ) = (20, Real.sqrt (200 / 3)) ∧
    (816496575 : ℝ) / 10 ^ 8 ≤ Real.sqrt (200 / 3) ∧
    Real.sqrt (200 / 3) < (816496585 : ℝ) / 10 ^ 8 ∧
    main time.Parse (fun _ => .ok [.fields ["query", "group", "time", "value"],
        .fields ["q1", "g1", "2023-01-01T00:00:00Z", "10"],
        .fields ["q2", "g1", "2023-01-02T00:00:00Z", "20"],
        .fields ["q3", "g2", "2023-01-03T00:00:00Z", "30"]]) ["ddDeviation", "data.csv"]
      = .done [.avg (F64.ofNat 20), .deviation (F64.fin false 4596467122019239 (-49))] := by
  refine ⟨by decide!, by decide!, ?_, by decide!, ?_, ?_, ?_, ?_, by decide!⟩
  · intro data
    rw [projectValues_eq_map]
    exact ⟨rfl, List.length_map _ _⟩
  · refine ⟨(4596467122019239 : ℚ) * 2 ^ (-49 : ℤ), ?_, ?_, ?_, ?_⟩
    · simp [F64.toRat]
    · norm_num
    · norm_num
    · rw [abs_lt]
      constructor <;> norm_num
  · rw [real_getStdDeviation]
    norm_num
  · apply Real.le_sqrt_of_sq_le
    norm_num
  · rw [Real.sqrt_lt' (by norm_num)]
    norm_num

/-- C12 (the code at the failing input). Missing argument: when `os.Args` holds
only the program name, `main` panics at `args[1]` with an index out of range
(exit status 2) and prints no usage message; the missing-file-argument message
with exit status 1 is produced only for an explicitly empty first argument. -/
theorem main_missing_argument {T E : Type} (tp : String → Except E T)
    (osOpen : String → Except OsError (List RawRecord)) (prog : String) :
    main tp osOpen [prog] = Outcome.panicIndex 1 1 ∧
      main tp osOpen [prog] ≠ Outcome.exit 1 [Printed.missingFileArgument] ∧
      main tp osOpen [prog, ""] = Outcome.exit 1 [Printed.missingFileArgument] := by
  refine ⟨rfl, ?_, rfl⟩
  intro h
  cases h

/-- C13 (amended). Validation order within a row: under a header row of 4
fields and after valid rows, a row `k` with a field count other than 4 gives
the field-count error for `k` whatever its fields; a row of 4 fields whose
timestamp does not parse gives the invalid-timestamp error for `k` whatever
its number field; and the invalid-number error arises only when the timestamp
parses. -/
theorem parseCSV_validation_order {T E : Type} (tp : String → Except E T) (hdr : List String)
    (good : List (List String)) (rest : List RawRecord)
    (hh : hdr.length = 4)
    (hg : ∀ r ∈ good, (recordOf tp r).isSome = true) :
    (∀ fs : List String, fs.length ≠ 4 →
      parseCSV tp (.ok (.fields hdr :: (good.map .fields ++ .fields fs :: rest)))
        = (none, some (.readFailed ((good.length : Int) + 1) .fieldCount))) ∧
    (∀ (q g ts v : String) (e : E), tp ts = .error e →
      parseCSV tp (.ok (.fields hdr :: (good.map .fields ++ .fields [q, g, ts, v] :: rest)))
        = (none, some (.badTime ((good.length : Int) + 1) e))) ∧
    (∀ (q g ts v : String) (t : T) (e : NumError), tp ts = .ok t →
      strconv.ParseFloat v = .error e →
      parseCSV tp (.ok (.fields hdr :: (good.map .fields ++ .fields [q, g, ts, v] :: rest)))
        = (none, some (.badValue ((good.length : Int) + 1) e))) := by
  have key : ∀ raw : RawRecord,
      parseCSV tp (.ok (.fields hdr :: (good.map .fields ++ raw :: rest)))
        = parseLoop tp (rest.length + 1 + 1) ⟨raw :: rest, 4⟩ (good.length : Int)
            (good.filterMap (recordOf tp)) := by
    intro raw
    rw [parseCSV_unfold_header]
    have e1 : (good.map RawRecord.fields ++ raw :: rest).length + 1
        = (rest.length + 1 + 1) + good.length := by simp; omega
    have h4 : ((hdr.length : Nat) : Int) = 4 := by omega
    have := parseLoop_good tp good (raw :: rest) (rest.length + 1 + 1) 0 [] (le_refl 0) hg
    rw [e1, h4, this]
    simp
  have hk : (0 : Int) ≤ (good.length : Int) := by omega
  refine ⟨?_, ?_, ?_⟩
  · intro fs hfs
    rw [key, parseLoop_rejected tp _ 4 _ _ fs rest (by unfold accepts; omega)]
  · intro q g ts v e ht
    rw [key, parseLoop_four tp _ 4 _ _ q g ts v rest (by simp [accepts]) hk]
    simp only [ht]
  · intro q g ts v t e ht hv
    rw [key, parseLoop_four tp _ 4 _ _ q g ts v rest (by simp [accepts]) hk]
    simp only [ht, hv]

/-- C13 witness: under the header of 4 fields and after one valid row, a row of
three fields, a row whose timestamp and number both fail, and a row whose
number alone fails. -/
theorem parseCSV_validation_order_witness :
    (["query", "group", "time", "value"] : List String).length = 4 ∧
      (∀ r ∈ [["q1", "g1", "2023-01-01T00:00:00Z", "10"]],
        (recordOf time.Parse r).isSome = true) ∧
      ((∀ fs : List String, fs.length ≠ 4 →
        parseCSV time.Parse (.ok (.fields ["query", "group", "time", "value"] ::
            ([["q1", "g1", "2023-01-01T00:00:00Z", "10"]].map .fields ++ .fields fs :: [])))
          = (none, some (.readFailed ((([["q1", "g1", "2023-01-01T00:00:00Z", "10"]] :
              List (List String)).length : Int) + 1) .fieldCount))) ∧
      (∀ (q g ts v : String) (e : TimeError), time.Parse ts = .error e →
        parseCSV time.Parse (.ok (.fields ["query", "group", "time", "value"] ::
            ([["q1", "g1", "2023-01-01T00:00:00Z", "10"]].map .fields ++
              .fields [q, g, ts, v] :: [])))
          = (none, some (.badTime ((([["q1", "g1", "2023-01-01T00:00:00Z", "10"]] :
              List (List String)).length : Int) + 1) e))) ∧
      (∀ (q g ts v : String) (t : Time) (e : NumError), time.Parse ts = .ok t →
        strconv.ParseFloat v = .error e →
        parseCSV time.Parse (.ok (.fields ["query", "group", "time", "value"] ::
            ([["q1", "g1", "2023-01-01T00:00:00Z", "10"]].map .fields ++
              .fields [q, g, ts, v] :: [])))
          = (none, some (.badValue ((([["q1", "g1", "2023-01-01T00:00:00Z", "10"]] :
              List (List String)).length : Int) + 1) e)))) :=
  ⟨rfl, by decide,
    parseCSV_validation_order time.Parse ["query", "group", "time", "value"]
      [["q1", "g1", "2023-01-01T00:00:00Z", "10"]] [] rfl (by decide)⟩

/-- C13 counterexample: under a header row of one field, row 1 has 4 fields
with an unparseable timestamp and an unparseable number; the error is the
reader's field-count error, not the invalid-timestamp error. Under the header
of 4 fields the same row gives the invalid-timestamp error. -/
theorem parseCSV_validation_order_counterexample :
    time.Parse "yesterday" = .error TimeError.mismatch ∧
      strconv.ParseFloat "many" = .error NumError.syntaxErr ∧
      parseCSV time.Parse (.ok [.fields ["id"], .fields ["q1", "g1", "yesterday", "many"]])
        = (none, some (.readFailed 1 .fieldCount)) ∧
      parseCSV time.Parse (.ok [.fields ["query", "group", "time", "value"],
          .fields ["q1", "g1", "yesterday", "many"]])
        = (none, some (.badTime 1 TimeError.mismatch)) := by
  refine ⟨rfl, rfl, by decide, by decide⟩

/-- C14. Zero deviation exactly for constant data: over exact real arithmetic,
for a non-empty `d` the standard deviation returned by `getStdDeviation d` is 0
if and only if all elements of `d` are equal, and when all elements equal `c`
the mean returned is `c`. -/
theorem getStdDeviation_zero_iff_constant (d : List ℝ) (hne : d ≠ []) :
    ((getStdDeviation d).2 = 0 ↔ ∀ a ∈ d, ∀ b ∈ d, a = b) ∧
      ∀ c, (∀ v ∈ d, v = c) → (getStdDeviation d).1 = c := by
  have hn := length_pos_real d hne
  have hmean : ∀ c, (∀ v ∈ d, v = c) → d.sum / (d.length : ℝ) = c := by
    intro c hc
    rw [sum_const d c hc]
    field_simp
  rw [real_getStdDeviation]
  refine ⟨?_, hmean⟩
  simp only
  rw [Real.sqrt_eq_zero', div_le_iff₀ hn, zero_mul]
  constructor
  · intro h a ha b hb
    have h0 := le_antisymm h (sum_sq_dev_nonneg d _)
    have hall := (sum_sq_dev_eq_zero d _).mp h0
    rw [hall a ha, hall b hb]
  · intro h
    obtain ⟨c, hc⟩ := List.exists_mem_of_ne_nil d hne
    have hcall : ∀ v ∈ d, v = c := fun v hv => h v hv c hc
    have := hmean c hcall
    rw [this]
    exact le_of_eq ((sum_sq_dev_eq_zero d c).mpr hcall)

/-- C14 witness: the constant sequence `[3, 3]`. -/
theorem getStdDeviation_zero_iff_constant_witness :
    ([3, 3] : List ℝ) ≠ [] ∧
      (((getStdDeviation ([3, 3] : List ℝ)).2 = 0 ↔ ∀ a ∈ ([3, 3] : List ℝ), ∀ b ∈ ([3, 3] : List ℝ), a = b) ∧
        ∀ c, (∀ v ∈ ([3, 3] : List ℝ), v = c) → (getStdDeviation ([3, 3] : List ℝ)).1 = c) :=
  ⟨by simp, getStdDeviation_zero_iff_constant [3, 3] (by simp)⟩

/-- C15. Shift invariance and scaling: over exact real arithmetic, for a
non-empty `d`, adding `c` to every element adds `c` to the mean and keeps the
standard deviation, and multiplying every element by `k` multiplies the mean
by `k` and the standard deviation by `|k|`. -/
theorem getStdDeviation_shift_scale (d : List ℝ) (hne : d ≠ []) (c k : ℝ) :
    getStdDeviation (d.map fun v => v + c)
        = ((getStdDeviation d).1 + c, (getStdDeviation d).2) ∧
      getStdDeviation (d.map fun v => k * v)
        = (k * (getStdDeviation d).1, |k| * (getStdDeviation d).2) := by
  have hn := length_pos_real d hne
  have hn0 : (d.length : ℝ) ≠ 0 := ne_of_gt hn
  constructor
  · rw [real_getStdDeviation, real_getStdDeviation, List.length_map, sum_map_add_const]
    have hm : (d.sum + (d.length : ℝ) * c) / (d.length : ℝ) = d.sum / (d.length : ℝ) + c := by
      field_simp
      ring
    rw [hm, sum_sq_dev_shift]
  · rw [real_getStdDeviation, real_getStdDeviation, List.length_map, sum_map_mul_const]
    have hm : k * d.sum / (d.length : ℝ) = k * (d.sum / (d.length : ℝ)) := by ring
    rw [hm, sum_sq_dev_scale]
    simp only
    congr 1
    rw [mul_div_assoc, Real.sqrt_mul (sq_nonneg k), Real.sqrt_sq_eq_abs]

/-- C15 witness: the sequence `[1, 2]` shifted by 5 and scaled by -3. -/
theorem getStdDeviation_shift_scale_witness :
    ([1, 2] : List ℝ) ≠ [] ∧
      (getStdDeviation (([1, 2] : List ℝ).map fun v => v + 5)
          = ((getStdDeviation ([1, 2] : List ℝ)).1 + 5, (getStdDeviation ([1, 2] : List ℝ)).2) ∧
        getStdDeviation (([1, 2] : List ℝ).map fun v => -3 * v)
          = (-3 * (getStdDeviation ([1, 2] : List ℝ)).1,
              |(-3 : ℝ)| * (getStdDeviation ([1, 2] : List ℝ)).2)) :=
  ⟨by simp, getStdDeviation_shift_scale [1, 2] (by simp) 5 (-3)⟩

/-- C16. Mean bounded by the data: over exact real arithmetic, for a non-empty
`d` with minimum element `lo` and maximum element `hi`, `getAverage d` lies
between `lo` and `hi`, and the standard deviation returned by
`getStdDeviation d` is non-negative and at most `hi - lo`. -/
theorem getStdDeviation_bounds (d : List ℝ) (hne : d ≠ []) (lo hi : ℝ)
    (hlo : lo ∈ d ∧ ∀ v ∈ d, lo ≤ v) (hhi : hi ∈ d ∧ ∀ v ∈ d, v ≤ hi) :
    lo ≤ getAverage d ∧ getAverage d ≤ hi ∧
      0 ≤ (getStdDeviation d).2 ∧ (getStdDeviation d).2 ≤ hi - lo := by
  have hn := length_pos_real d hne
  obtain ⟨h1, h2⟩ := mean_bounds d hne lo hi hlo.2 hhi.2
  rw [real_getStdDeviation, real_getAverage]
  refine ⟨h1, h2, Real.sqrt_nonneg _, ?_⟩
  simp only
  have hlohi : lo ≤ hi := hlo.2 hi hhi.1
  rw [Real.sqrt_le_iff]
  refine ⟨by linarith, ?_⟩
  rw [div_le_iff₀ hn]
  have hterm : ∀ x ∈ d.map (fun v => (v - d.sum / (d.length : ℝ)) ^ 2), x ≤ (hi - lo) ^ 2 := by
    intro x hx
    obtain ⟨v, hv, rfl⟩ := List.mem_map.mp hx
    have hv1 := hlo.2 v hv
    have hv2 := hhi.2 v hv
    have ha : |v - d.sum / (d.length : ℝ)| ≤ |hi - lo| := by
      rw [abs_le, abs_of_nonneg (by linarith : 0 ≤ hi - lo)]
      constructor <;> linarith
    exact sq_le_sq.mpr ha
  have := sum_le_of_le _ _ hterm
  rw [List.length_map] at this
  linarith

/-- C16 witness: the sequence `[1, 3]`, minimum 1, maximum 3. -/
theorem getStdDeviation_bounds_witness :
    ([1, 3] : List ℝ) ≠ [] ∧
      ((1 : ℝ) ∈ ([1, 3] : List ℝ) ∧ ∀ v ∈ ([1, 3] : List ℝ), (1 : ℝ) ≤ v) ∧
      ((3 : ℝ) ∈ ([1, 3] : List ℝ) ∧ ∀ v ∈ ([1, 3] : List ℝ), v ≤ (3 : ℝ)) ∧
      ((1 : ℝ) ≤ getAverage ([1, 3] : List ℝ) ∧ getAverage ([1, 3] : List ℝ) ≤ 3 ∧
        0 ≤ (getStdDeviation ([1, 3] : List ℝ)).2 ∧
        (getStdDeviation ([1, 3] : List ℝ)).2 ≤ 3 - 1) :=
  ⟨by simp, ⟨by simp, by simp⟩, ⟨by simp, by simp⟩,
    getStdDeviation_bounds [1, 3] (by simp) 1 3 ⟨by simp, by simp⟩ ⟨by simp, by simp⟩⟩

/-- C17. Two-pass equals one-pass variance: over exact real arithmetic, for a
non-empty `d`, the variance `getStdDeviation` computes (the mean of the
squared deviations from the mean, whose square root it returns) equals the
mean of the squares minus the square of the mean, and is non-negative, so the
returned square root squares back to it. -/
theorem variance_two_pass_eq_one_pass (d : List ℝ) (hne : d ≠ []) :
    (getStdDeviation d).2 = FloatOps.sqrt (getAverage
        (d.map fun v => FloatOps.powTwo (FloatOps.sub v (getAverage d)))) ∧
      getAverage (d.map fun v => FloatOps.powTwo (FloatOps.sub v (getAverage d)))
        = getAverage (d.map fun v => v ^ 2) - (getAverage d) ^ 2 ∧
      0 ≤ getAverage (d.map fun v => v ^ 2) - (getAverage d) ^ 2 ∧
      (getStdDeviation d).2 ^ 2 = getAverage (d.map fun v => v ^ 2) - (getAverage d) ^ 2 := by
  have hn := length_pos_real d hne
  have hn0 : (d.length : ℝ) ≠ 0 := ne_of_gt hn
  have hvar : getAverage (d.map fun v => FloatOps.powTwo (FloatOps.sub v (getAverage d)))
      = getAverage (d.map fun v => v ^ 2) - (getAverage d) ^ 2 := by
    rw [real_getAverage, real_getAverage, real_getAverage, List.length_map, List.length_map]
    show (d.map fun v => (v - d.sum / (d.length : ℝ)) ^ 2).sum / (d.length : ℝ) = _
    rw [sum_sq_dev]
    field_simp
    ring
  have hnonneg : 0 ≤ getAverage (d.map fun v => v ^ 2) - (getAverage d) ^ 2 := by
    rw [← hvar, real_getAverage, List.length_map]
    apply div_nonneg _ hn.le
    show 0 ≤ (d.map fun v => (v - getAverage d) ^ 2).sum
    exact sum_sq_dev_nonneg d _
  have hsnd : (getStdDeviation d).2 = FloatOps.sqrt (getAverage
      (d.map fun v => FloatOps.powTwo (FloatOps.sub v (getAverage d)))) := by
    rw [getStdDeviation_eq_map]
  refine ⟨hsnd, hvar, hnonneg, ?_⟩
  rw [hsnd, hvar]
  exact Real.sq_sqrt hnonneg

/-- C17 witness: the sequence `[1, 2, 3]`. -/
theorem variance_two_pass_eq_one_pass_witness :
    ([1, 2, 3] : List ℝ) ≠ [] ∧
      ((getStdDeviation ([1, 2, 3] : List ℝ)).2 = FloatOps.sqrt (getAverage
          (([1, 2, 3] : List ℝ).map fun v =>
            FloatOps.powTwo (FloatOps.sub v (getAverage ([1, 2, 3] : List ℝ))))) ∧
        getAverage (([1, 2, 3] : List ℝ).map fun v =>
            FloatOps.powTwo (FloatOps.sub v (getAverage ([1, 2, 3] : List ℝ))))
          = getAverage (([1, 2, 3] : List ℝ).map fun v => v ^ 2)
            - (getAverage ([1, 2, 3] : List ℝ)) ^ 2 ∧
        0 ≤ getAverage (([1, 2, 3] : List ℝ).map fun v => v ^ 2)
            - (getAverage ([1, 2, 3] : List ℝ)) ^ 2 ∧
        (getStdDeviation ([1, 2, 3] : List ℝ)).2 ^ 2
          = getAverage (([1, 2, 3] : List ℝ).map fun v => v ^ 2)
            - (getAverage ([1, 2, 3] : List ℝ)) ^ 2) :=
  ⟨by simp, variance_two_pass_eq_one_pass [1, 2, 3] (by simp)⟩

end DdDeviation
